import Mathlib

/-!
# BECS2: entity/component storage

A shallow embedding of `src/src/ComponentStatus.hpp` and `src/src/World.hpp`.

Conventions of the embedding.

* A parameter pack is identified with its length, and a type of the pack with
  its zero-based position in it.  `ComponentStatus<Structures...>` with
  `N = sizeof...(Structures)` speaks of positions `p < N`; the status entries of
  `World<Components...>` with `K = sizeof...(Components)` are
  `ComponentStatus<Exist, Components...>`, so `Exist` is position `0` and the
  component kind `c < K` is position `c + 1` of `N = K + 1` structures.
* A bitfield is a natural number; the stores into `storage_type` truncate to its
  width explicitly.
* Component values of all kinds live in one type `α`; `default` is the value a
  `std::vector::resize` fills new slots with.
* Subscripting a `std::vector` outside its length is undefined behaviour; every
  operation that subscripts returns `Option`, and `none` stands for such an
  access.
* A template instantiation that is ill-formed has no value, which is `none`
  too: the mask of a kind with 64 or more kinds declared after it, and the
  storage selected by the branch of `select_storage_type` that calls the private
  constructor of `CustomSizeType`.
* `size_t` counters are natural numbers.  `number_of_entities--` wraps at zero
  and `number_of_entities++` is the successor modulo `2 ^ 64`.  Memory is
  idealised as unbounded: `tables_capacity * 2` is not reduced, and in a world
  whose status table has `2 ^ 64 - 1` entries or more, which no `std::vector`
  holds, the increment is not reduced either.
* The output on `std::cout` of `increase_capacity` is not modelled.
* A `CustomSizeType<N>` is the list of its 64-bit words, word 0 first; the operations on it
  are embedded from their bodies, and the conversion of the `size_t` result of
  `ctzCustomSizeType` to its return type `int` is explicit.
-/

namespace BECS

/-! ## ComponentStatus.hpp -/

/-- `sizeInBits<uint64_t>`. -/
def sizeInBits_uint64 : Nat := 64

/-- `BitPosition<T, Structures...>::value` for the `T` at position `p` of a pack `Structures...`
of length `N`.  The partial specialisation `BitPosition<T, T, Rest...>` gives
`1ULL << sizeof...(Rest)`; `BitPosition<T, First, Rest...>` drops `First`.  The primary
template is only declared, the first equation is never used for `p < N`.  This is the value
for a shift below 64; `ComponentStatus.position` says where the shift is a constant. -/
def BitPosition : Nat → Nat → Nat
  | _, 0 => 0
  | 0, N + 1 => 1 <<< N
  | p + 1, N + 1 => BitPosition p N

/-- `CustomSizeType<N>::num_of_elements`. -/
def CustomSizeType.num_of_elements (N : Nat) : Nat :=
  if N % 64 = 0 then N / 64 else N / 64 + 1

/-- The types named in `select_storage_type<N>()`: the native unsigned integers, `__int128`,
and `CustomSizeType<N>`. -/
inductive Storage where
  | uint8 : Storage
  | uint16 : Storage
  | uint32 : Storage
  | uint64 : Storage
  | int128 : Storage
  | custom (N : Nat) : Storage
deriving DecidableEq, Repr

/-- `sizeInBits<T>`, that is `sizeof(T) * 8`, of a storage type; `CustomSizeType<N>` holds one
`std::array` of `num_of_elements` 64-bit words. -/
def sizeInBits : Storage → Nat
  | Storage.uint8 => 8
  | Storage.uint16 => 16
  | Storage.uint32 => 32
  | Storage.uint64 => 64
  | Storage.int128 => 128
  | Storage.custom N => CustomSizeType.num_of_elements N * sizeInBits_uint64

/-- `select_storage_type<N>()`: the type of the returned value.  The flag `int128` says whether
the compiler defines `__SIZEOF_INT128__`; no compiler defines `__SIZEOF_INT256__`.  The last
branch, `return CustomSizeType<N> {0}`, calls a constructor that is private in
`CustomSizeType` (a `class` without an access specifier): the instantiation is ill-formed and
selects nothing, which is `none`. -/
def select_storage_type (int128 : Bool) (N : Nat) : Option Storage :=
  if N ≤ 8 then some Storage.uint8
  else if N ≤ 16 then some Storage.uint16
  else if N ≤ 32 then some Storage.uint32
  else if N ≤ 64 then some Storage.uint64
  else if int128 && decide (N ≤ 128) then some Storage.int128
  else none

/-- `ComponentStatus::size()`: `num_of_structures`. -/
def ComponentStatus.size (N : Nat) : Nat := N

/-- `ComponentStatus::capacity()`: the bit width of `storage_type`.  Where
`select_storage_type<N>()` is ill-formed there is no `ComponentStatus` and no `capacity()`; the
function is total, and its value there is the width of the `CustomSizeType<N>` that the
ill-formed branch names. -/
def ComponentStatus.capacity (int128 : Bool) (N : Nat) : Nat :=
  match select_storage_type int128 N with
  | some S => sizeInBits S
  | none => sizeInBits (Storage.custom N)

/-- `ComponentStatus::ComponentStatus()`: `bitfield(0)`. -/
def ComponentStatus.init : Nat := 0

/-- `ComponentStatus::activate<T>()` on native storage of `W` bits:
`bitfield |= BitPosition<T, Structures...>::value`. -/
def ComponentStatus.activate (W N p bitfield : Nat) : Nat :=
  (bitfield ||| BitPosition p N) % 2 ^ W

/-- `ComponentStatus::deactivate<T>()` on native storage of `W` bits:
`bitfield &= ~BitPosition<T, Structures...>::value`, the complement being taken on the
64-bit mask and the result stored back into `W` bits. -/
def ComponentStatus.deactivate (W N p bitfield : Nat) : Nat :=
  (bitfield &&& (2 ^ 64 - 1 - BitPosition p N)) % 2 ^ W

/-- `ComponentStatus::isActive<T>()`: `(bitfield & BitPosition<T, Structures...>::value) != 0`. -/
def ComponentStatus.isActive (N p bitfield : Nat) : Bool :=
  (bitfield &&& BitPosition p N) != 0

/-- The shift `sizeof...(Rest)` of `BitPosition<T, Structures...>` for the `T` at position `p`
of a pack of length `N`, by the same two specialisations as `BitPosition`; `none` where only
the undefined primary template is left (`T` is not in the pack). -/
def BitPosition.shift : Nat → Nat → Option Nat
  | _, 0 => none
  | 0, N + 1 => some N
  | p + 1, N + 1 => BitPosition.shift p N

/-- `ComponentStatus::position<T>()`: `BitPosition<T, Structures...>::value`.  It is a member
of `ComponentStatus<Structures...>`, which instantiates only where `select_storage_type`
selects a storage; and the value is the template argument `1ULL << sizeof...(Rest)` of a
`std::integral_constant<uint64_t, ...>`, which is a constant expression only for a shift below
64.  `none` is an instantiation that is ill-formed. -/
def ComponentStatus.position (int128 : Bool) (N p : Nat) : Option Nat :=
  match select_storage_type int128 N with
  | none => none
  | some _ =>
    match BitPosition.shift p N with
    | none => none
    | some r => if r < 64 then some (BitPosition p N) else none

/-- The trailing zero bits of `x`, counted over at most `fuel` bits. -/
def builtin_ctz.count : Nat → Nat → Nat
  | 0, _ => 0
  | fuel + 1, x => if x % 2 = 1 then 0 else builtin_ctz.count fuel (x / 2) + 1

/-- The compiler builtins `__builtin_ctz` (`bits = 32`, on `unsigned int`) and
`__builtin_ctzll` (`bits = 64`, on `unsigned long long`): the argument is converted to the
unsigned type of `bits` bits and its trailing zero bits are counted; the result is undefined
(`none`) when that value is 0. -/
def builtin_ctz (bits x : Nat) : Option Nat :=
  if x % 2 ^ bits = 0 then none else some (builtin_ctz.count bits (x % 2 ^ bits))

/-- `ComponentStatus::index<T>()`: `__builtin_ctz` of `bitfield & BitPosition<T, ...>::value`
for storage of at most 32 bits, `__builtin_ctzll` for storage of at most 64 bits, and the
constant 0 for wider storage; `none` where no storage is selected, where the mask is
ill-formed, or where the count is taken of 0. -/
def ComponentStatus.index (int128 : Bool) (N p bitfield : Nat) : Option Nat :=
  match select_storage_type int128 N with
  | none => none
  | some storage_type =>
    if sizeInBits storage_type ≤ 32 then
      match ComponentStatus.position int128 N p with
      | none => none
      | some m => builtin_ctz 32 (bitfield &&& m)
    else if sizeInBits storage_type ≤ 64 then
      match ComponentStatus.position int128 N p with
      | none => none
      | some m => builtin_ctz 64 (bitfield &&& m)
    else some 0

/-- The value of a `CustomSizeType`: its 64-bit words, word 0 holding the lowest 64 bits. -/
def CustomSizeType.value : List Nat → Nat
  | [] => 0
  | w :: ws => w + 2 ^ 64 * CustomSizeType.value ws

/-- `std::memset(data.data(), 0, k * sizeof(uint64_t))`: the first `k` words become 0. -/
def CustomSizeType.memset_zero (data : List Nat) (k : Nat) : List Nat :=
  List.replicate (min k data.length) 0 ++ data.drop k

/-- The `for` loop of `CustomSizeType::operator<<=` at loop variable `i`, a `size_t` whose
decrement is modulo `2 ^ 64`.  Each iteration subscripts the word array, so `none` is a
subscript outside it or a right shift by the full width 64; an iteration either leaves the
array or lowers `i`, so `num_of_elements + 1` iterations of `fuel` are all there can be. -/
def CustomSizeType.shl.loop (num_of_elements_to_shift bits_to_shift : Nat) :
    Nat → Nat → List Nat → Option (List Nat)
  | 0, _, _ => none
  | fuel + 1, i, data =>
    if i ≥ num_of_elements_to_shift then
      match data[i - num_of_elements_to_shift]? with
      | none => none
      | some src =>
        if i < data.length then
          if i > num_of_elements_to_shift then
            if sizeInBits_uint64 - bits_to_shift < 64 then
              match data[i - num_of_elements_to_shift - 1]? with
              | none => none
              | some low =>
                CustomSizeType.shl.loop num_of_elements_to_shift bits_to_shift fuel
                  ((i + 2 ^ 64 - 1) % 2 ^ 64)
                  (data.set i ((src <<< bits_to_shift) % 2 ^ 64 |||
                    low >>> (sizeInBits_uint64 - bits_to_shift)))
            else none
          else
            CustomSizeType.shl.loop num_of_elements_to_shift bits_to_shift fuel
              ((i + 2 ^ 64 - 1) % 2 ^ 64) (data.set i ((src <<< bits_to_shift) % 2 ^ 64))
        else none
    else some data

/-- `CustomSizeType<N>::operator<<=(shift)` on the word array `data` of `num_of_elements`
words: the word array after the call. -/
def CustomSizeType.shl (N : Nat) (data : List Nat) (shift : Nat) : Option (List Nat) :=
  if shift ≥ N then some (CustomSizeType.memset_zero data data.length)
  else
    match CustomSizeType.shl.loop (shift / sizeInBits_uint64) (shift % sizeInBits_uint64)
        (CustomSizeType.num_of_elements N + 1)
        ((CustomSizeType.num_of_elements N + 2 ^ 64 - 1) % 2 ^ 64) data with
    | none => none
    | some shifted => some (CustomSizeType.memset_zero shifted (shift / sizeInBits_uint64))

/-- The conversion of a `size_t` value to the return type `int` of `ctzCustomSizeType`. -/
def int_of_size_t (x : Nat) : Int :=
  if x % 2 ^ 32 < 2 ^ 31 then ((x % 2 ^ 32 : Nat) : Int)
  else ((x % 2 ^ 32 : Nat) : Int) - 2 ^ 32

/-- The `for` loop of `ctzCustomSizeType` over the words from index `i` on; past the last word
the function returns `int {}`. -/
def ctzCustomSizeType.loop : List Nat → Nat → Option Int
  | [], _ => some 0
  | w :: ws, i =>
    if w != 0 then
      match builtin_ctz 64 w with
      | none => none
      | some z => some (int_of_size_t ((z + i * sizeInBits_uint64) % 2 ^ 64))
    else ctzCustomSizeType.loop ws (i + 1)

/-- `ctzCustomSizeType(value)` on the word array of `value`. -/
def ctzCustomSizeType (data : List Nat) : Option Int :=
  ctzCustomSizeType.loop data 0

/-! ## World.hpp -/

/-- The data members of `World<Components...>`: the status table, one column per
component kind (in declaration order), `tables_capacity` and `number_of_entities`. -/
structure World (α : Type) where
  status : List Nat
  tables : List (List α)
  tables_capacity : Nat
  number_of_entities : Nat
deriving DecidableEq, Repr

/-- `std::vector::resize(n)`: truncate, or extend with value-initialised elements. -/
def resize {β : Type} (l : List β) (n : Nat) (d : β) : List β :=
  l.take n ++ List.replicate (n - l.length) d

section
variable {α : Type} [Inhabited α]

/-- `World::defaultTableCapacity`. -/
def World.defaultTableCapacity : Nat := 8

/-- `World::increase_capacity`. -/
def World.increase_capacity (w : World α) (new_capacity : Nat) : World α :=
  { w with
    tables_capacity := new_capacity
    tables := w.tables.map fun col => resize col new_capacity default
    status := resize w.status new_capacity ComponentStatus.init }

/-- `World::World()` for `K` component kinds: members are default-initialised (empty
vectors, `tables_capacity = defaultTableCapacity`, `number_of_entities = 0`), then
`increase_capacity(defaultTableCapacity)`. -/
def World.new (K : Nat) : World α :=
  World.increase_capacity
    { status := []
      tables := List.replicate K []
      tables_capacity := World.defaultTableCapacity
      number_of_entities := 0 }
    World.defaultTableCapacity

/-- The width of the status entries of a world of `K` kinds. -/
def World.status_bits (int128 : Bool) (K : Nat) : Nat :=
  ComponentStatus.capacity int128 (K + 1)

/-- The fold `(status[idx].isActive<Cs>() && ...)` on a status entry, the kinds `Cs` given
as positions in `Components...`. -/
def World.allActive (K : Nat) (Cs : List Nat) (s : Nat) : Bool :=
  Cs.all fun c => ComponentStatus.isActive (K + 1) (c + 1) s

/-- The references `std::get<container_t<Cs>>(tables)[idx]...` of `World::get`. -/
def World.slots (w : World α) : List Nat → Nat → Option (List α)
  | [], _ => some []
  | c :: cs, idx =>
    match w.tables[c]? with
    | none => none
    | some col =>
      match col[idx]? with
      | none => none
      | some v => (World.slots w cs idx).map fun vs => v :: vs

/-- `World::get<Cs...>(idx)`.  The outer `Option` is the bounds of the subscripts, the
inner one the returned `std::optional`. -/
def World.get (K : Nat) (w : World α) (Cs : List Nat) (idx : Nat) : Option (Option (List α)) :=
  match w.status[idx]? with
  | none => none
  | some s =>
    if World.allActive K Cs s then (World.slots w Cs idx).map some
    else some none

/-- `World::has<Cs...>(idx)`. -/
def World.has (K : Nat) (w : World α) (Cs : List Nat) (idx : Nat) : Option Bool :=
  match w.status[idx]? with
  | none => none
  | some s => some (World.allActive K Cs s)

/-- `World::add<C>(idx, component)`. -/
def World.add (int128 : Bool) (K : Nat) (w : World α) (c idx : Nat) (component : α) :
    Option (World α) :=
  match w.tables[c]? with
  | none => none
  | some col =>
    if idx < col.length then
      match w.status[idx]? with
      | none => none
      | some s =>
        some { w with
          tables := w.tables.set c (col.set idx component)
          status := w.status.set idx
            (ComponentStatus.activate (World.status_bits int128 K) (K + 1) (c + 1) s) }
    else none

/-- `World::remove<C>(idx)`. -/
def World.remove (int128 : Bool) (K : Nat) (w : World α) (c idx : Nat) : Option (World α) :=
  match w.status[idx]? with
  | none => none
  | some s =>
    some { w with
      status := w.status.set idx
        (ComponentStatus.deactivate (World.status_bits int128 K) (K + 1) (c + 1) s) }

/-- The `for` loop of `World::get_next_entity_id`, at loop variable `i` with
`fuel = tables_capacity - i`.  Leaving the loop returns the outer `i`, which is `0`. -/
def World.get_next_entity_id.loop (K : Nat) (w : World α) : Nat → Nat → Option Nat
  | 0, _ => some 0
  | fuel + 1, i =>
    if i < w.tables_capacity ∧ i ≤ w.number_of_entities then
      match w.status[i]? with
      | none => none
      | some s =>
        if !ComponentStatus.isActive (K + 1) 0 s then some i
        else World.get_next_entity_id.loop K w fuel (i + 1)
    else some 0

/-- `World::get_next_entity_id`. -/
def World.get_next_entity_id (K : Nat) (w : World α) : Option Nat :=
  if w.number_of_entities = w.tables_capacity then some w.tables_capacity
  else World.get_next_entity_id.loop K w w.tables_capacity 0

/-- The fold `(status[idx].deactivate<Components>(), ...)` of `World::new_entity`. -/
def World.deactivate_all (int128 : Bool) (K : Nat) (s : Nat) : Nat :=
  (List.range K).foldl
    (fun b c => ComponentStatus.deactivate (World.status_bits int128 K) (K + 1) (c + 1) b) s

/-- `number_of_entities++` on the `size_t` counter: the successor modulo `2 ^ 64`, in every
world whose status table has fewer than `2 ^ 64 - 1` entries. -/
def World.increment (w : World α) : Nat :=
  if w.status.length < 2 ^ 64 - 1 then (w.number_of_entities + 1) % 2 ^ 64
  else w.number_of_entities + 1

/-- `World::new_entity`: the world after the call and the returned id. -/
def World.new_entity (int128 : Bool) (K : Nat) (w : World α) : Option (World α × Nat) :=
  match World.get_next_entity_id K w with
  | none => none
  | some idx0 =>
    let w1 := { w with number_of_entities := World.increment w }
    let w2 := if idx0 = w1.tables_capacity
      then World.increase_capacity w1 (w1.tables_capacity * 2) else w1
    let idx := if idx0 = w1.tables_capacity then w2.number_of_entities else idx0
    match w2.status[idx]? with
    | none => none
    | some s =>
      let s1 := ComponentStatus.activate (World.status_bits int128 K) (K + 1) 0 s
      some ({ w2 with status := w2.status.set idx (World.deactivate_all int128 K s1) }, idx)

/-- `World::delete_entity`. -/
def World.delete_entity (int128 : Bool) (K : Nat) (w : World α) (idx : Nat) : Option (World α) :=
  let n := if w.number_of_entities = 0 then 2 ^ 64 - 1 else w.number_of_entities - 1
  match w.status[idx]? with
  | none => none
  | some s =>
    some { w with
      number_of_entities := n
      status := w.status.set idx
        (ComponentStatus.deactivate (World.status_bits int128 K) (K + 1) 0 s) }

/-- `World::size`. -/
def World.size (w : World α) : Nat := w.number_of_entities

/-- `World::capacity`. -/
def World.capacity (w : World α) : Nat := w.tables_capacity

/-- `World::clear`. -/
def World.clear (w : World α) : World α :=
  { w with
    number_of_entities := 0
    tables := w.tables.map fun _ => []
    status := [] }

/-- The loop of `World::iterator<Cs...>::operator++` after the first `idx++`, with
`fuel = number_of_entities - idx`: it advances while `idx < number_of_entities` and the
fold `(!status[idx].isActive<Cs>() && ...)` holds.  The kinds `Cs` are positions in
`Exist, Components...`. -/
def World.iterator.skip (K : Nat) (w : World α) (Cs : List Nat) : Nat → Nat → Option Nat
  | 0, idx => some idx
  | fuel + 1, idx =>
    if idx < w.number_of_entities then
      match w.status[idx]? with
      | none => none
      | some s =>
        if Cs.all fun p => !ComponentStatus.isActive (K + 1) p s then
          World.iterator.skip K w Cs fuel (idx + 1)
        else some idx
    else some idx

/-- `World::iterator<Cs...>::operator++`: the index of the incremented iterator. -/
def World.iterator.next (K : Nat) (w : World α) (Cs : List Nat) (idx : Nat) : Option Nat :=
  World.iterator.skip K w Cs (w.number_of_entities - (idx + 1)) (idx + 1)

/-- The loop of `World::begin`, with `fuel = number_of_entities - idx`. -/
def World.begin.loop (K : Nat) (w : World α) : Nat → Nat → Option Nat
  | 0, idx => some idx
  | fuel + 1, idx =>
    if idx < w.number_of_entities then
      match w.status[idx]? with
      | none => none
      | some s =>
        if !ComponentStatus.isActive (K + 1) 0 s then World.begin.loop K w fuel (idx + 1)
        else some idx
    else some idx

/-- `World::begin`: the index of the returned `iterator<Exist>`. -/
def World.begin (K : Nat) (w : World α) : Option Nat :=
  World.begin.loop K w w.number_of_entities 0

/-- `World::end`: the index of the returned iterator. -/
def World.end (w : World α) : Nat := w.number_of_entities

/-- The fold `(!world.status[idx].isActive<FilterComponents>() || ...)` of `View::begin`,
reading the status table at each evaluated operand. -/
def World.View.anyInactive (K : Nat) (w : World α) : List Nat → Nat → Option Bool
  | [], _ => some false
  | c :: cs, idx =>
    match w.status[idx]? with
    | none => none
    | some s =>
      if !ComponentStatus.isActive (K + 1) (c + 1) s then some true
      else World.View.anyInactive K w cs idx

/-- The loop condition of `View::begin`:
`idx < number_of_entities && !status[idx].isActive<Exist>() || (... || ...)`. -/
def World.View.begin.cond (K : Nat) (w : World α) (Cs : List Nat) (idx : Nat) : Option Bool :=
  let first : Option Bool :=
    if idx < w.number_of_entities then
      match w.status[idx]? with
      | none => none
      | some s => some (!ComponentStatus.isActive (K + 1) 0 s)
    else some false
  match first with
  | none => none
  | some true => some true
  | some false => World.View.anyInactive K w Cs idx

/-- The loop of `View<FilterComponents...>::begin`.  An iteration at an index outside the
status table is an access out of bounds, so `fuel = status.size() + 1 - idx` iterations are
all there can be. -/
def World.View.begin.loop (K : Nat) (w : World α) (Cs : List Nat) : Nat → Nat → Option Nat
  | 0, _ => none
  | fuel + 1, idx =>
    match World.View.begin.cond K w Cs idx with
    | none => none
    | some true => World.View.begin.loop K w Cs fuel (idx + 1)
    | some false => some idx

/-- `View<FilterComponents...>::begin`: the index of the returned iterator, which is
`iterator(world, 0)` once the loop has ended. -/
def World.View.begin (K : Nat) (w : World α) (Cs : List Nat) : Option Nat :=
  match World.View.begin.loop K w Cs (w.status.length + 1) 0 with
  | none => none
  | some _ => some 0

/-- `View<FilterComponents...>::end`: the index of the returned iterator. -/
def World.View.end (w : World α) : Nat := w.number_of_entities

/-- The range-based `for` over iterators of filter `Cs`:
`for (it = first; it != last; ++it)` collecting `*it`.  Running out of `fuel` is `none`. -/
def World.iterator.collect (K : Nat) (w : World α) (Cs : List Nat) (last : Nat) :
    Nat → Nat → Option (List Nat)
  | 0, _ => none
  | fuel + 1, idx =>
    if idx != last then
      match World.iterator.next K w Cs idx with
      | none => none
      | some idx' => (World.iterator.collect K w Cs last fuel idx').map fun ids => idx :: ids
    else some []

/-- The ids visited by `for (auto id : world)`. -/
def World.iterate (K : Nat) (w : World α) : Option (List Nat) :=
  match World.begin K w with
  | none => none
  | some first =>
    World.iterator.collect K w [0] (World.end w) (w.number_of_entities + 1) first

/-- The ids visited by `for (auto id : world.view<Cs...>())`, the kinds `Cs` given as
positions in `Components...`. -/
def World.View.iterate (K : Nat) (w : World α) (Cs : List Nat) : Option (List Nat) :=
  match World.View.begin K w Cs with
  | none => none
  | some first =>
    World.iterator.collect K w (Cs.map fun c => c + 1) (World.View.end w)
      (w.number_of_entities + 1) first

/-! ## Call sequences -/

/-- A call of one of the mutating operations of the claims. -/
inductive Op (α : Type) where
  | new_entity : Op α
  | delete_entity (idx : Nat) : Op α
  | add (c idx : Nat) (component : α) : Op α
  | remove (c idx : Nat) : Op α
deriving DecidableEq, Repr

/-- The slot `idx` is inside the status table and its "exists" bit is set. -/
def World.live (K : Nat) (w : World α) (idx : Nat) : Bool :=
  match w.status[idx]? with
  | none => false
  | some s => ComponentStatus.isActive (K + 1) 0 s

/-- One call: the world after it and the ids it returned.  `delete_entity` is only called on
a live id, `add` and `remove` only on declared kinds. -/
def World.step (int128 : Bool) (K : Nat) (w : World α) : Op α → Option (World α × List Nat)
  | Op.new_entity => (World.new_entity int128 K w).map fun r => (r.1, [r.2])
  | Op.delete_entity idx =>
    if World.live K w idx then (World.delete_entity int128 K w idx).map fun w' => (w', [])
    else none
  | Op.add c idx v =>
    if c < K then (World.add int128 K w c idx v).map fun w' => (w', []) else none
  | Op.remove c idx =>
    if c < K then (World.remove int128 K w c idx).map fun w' => (w', []) else none

/-- A sequence of calls from a given world, with the ids returned by `new_entity` so far. -/
def World.run (int128 : Bool) (K : Nat) : World α × List Nat → List (Op α) →
    Option (World α × List Nat)
  | s, [] => some s
  | s, op :: ops =>
    match World.step int128 K s.1 op with
    | none => none
    | some r => World.run int128 K (r.1, s.2 ++ r.2) ops

/-- The worlds reachable from construction by `new_entity`, `delete_entity` of a live id,
`add` and `remove`. -/
def World.Reachable (int128 : Bool) (K : Nat) (w : World α) : Prop :=
  ∃ ops ids, World.run int128 K (World.new K, []) ops = some (w, ids)

/-- One call, `delete_entity` on any id: the world after it and the ids it returned.  A call
that subscripts a table outside its length has no result. -/
def World.step_any (int128 : Bool) (K : Nat) (w : World α) : Op α → Option (World α × List Nat)
  | Op.delete_entity idx => (World.delete_entity int128 K w idx).map fun w' => (w', [])
  | op => World.step int128 K w op

/-- A sequence of calls from a given world, `delete_entity` on any id. -/
def World.run_any (int128 : Bool) (K : Nat) : World α × List Nat → List (Op α) →
    Option (World α × List Nat)
  | s, [] => some s
  | s, op :: ops =>
    match World.step_any int128 K s.1 op with
    | none => none
    | some r => World.run_any int128 K (r.1, s.2 ++ r.2) ops

/-- The worlds reachable from construction by `new_entity`, `delete_entity`, `add` and
`remove`, the id given to `delete_entity` live or not. -/
def World.Reachable_any (int128 : Bool) (K : Nat) (w : World α) : Prop :=
  ∃ ops ids, World.run_any int128 K (World.new K, []) ops = some (w, ids)

/-- The status table and every column have length `tables_capacity`, and there is one column
per declared kind. -/
def World.WF (K : Nat) (w : World α) : Prop :=
  w.status.length = w.tables_capacity ∧ w.tables.length = K ∧
    ∀ col ∈ w.tables, col.length = w.tables_capacity

/-- The sizes the operations rely on: well-formed tables of at least two slots. -/
def World.Inv (K : Nat) (w : World α) : Prop :=
  World.WF K w ∧ 2 ≤ w.tables_capacity

/-- The status entry `new_entity` writes over the entry `s`. -/
def World.claimed (int128 : Bool) (K : Nat) (s : Nat) : Nat :=
  World.deactivate_all int128 K
    (ComponentStatus.activate (World.status_bits int128 K) (K + 1) 0 s)

/-- The number of slots whose "exists" bit is set. -/
def World.live_count (K : Nat) (w : World α) : Nat :=
  w.status.countP fun s => ComponentStatus.isActive (K + 1) 0 s

/-- The sizes together with the count: `number_of_entities` is the number of slots whose
"exists" bit is set. -/
def World.Counted (K : Nat) (w : World α) : Prop :=
  World.Inv K w ∧ w.number_of_entities = World.live_count K w

end

/-! ## Bit-level facts -/

theorem BitPosition_eq_two_pow : ∀ (N p : Nat), p < N → BitPosition p N = 2 ^ (N - 1 - p)
  | 0, _, h => absurd h (Nat.not_lt_zero _)
  | N + 1, 0, _ => by simp [BitPosition, Nat.one_shiftLeft]
  | N + 1, p + 1, h => by
    have hp : p < N := Nat.lt_of_succ_lt_succ h
    have e : N + 1 - 1 - (p + 1) = N - 1 - p := by omega
    rw [BitPosition, BitPosition_eq_two_pow N p hp, e]

theorem capacity_ge (int128 : Bool) (N : Nat) : N ≤ ComponentStatus.capacity int128 N := by
  unfold ComponentStatus.capacity select_storage_type
  have hw : N ≤ CustomSizeType.num_of_elements N * sizeInBits_uint64 := by
    unfold CustomSizeType.num_of_elements sizeInBits_uint64
    split_ifs <;> omega
  split_ifs with h1 h2 h3 h4 h5
  all_goals simp only [sizeInBits]
  · omega
  · omega
  · omega
  · omega
  · simp only [Bool.and_eq_true, decide_eq_true_eq] at h5
    exact h5.2
  · exact hw

theorem isActive_eq_testBit {N p : Nat} (h : p < N) (b : Nat) :
    ComponentStatus.isActive N p b = b.testBit (N - 1 - p) := by
  unfold ComponentStatus.isActive
  rw [BitPosition_eq_two_pow N p h, Nat.and_two_pow]
  cases hb : b.testBit (N - 1 - p) <;> simp [hb]

theorem testBit_activate {W N p : Nat} (h : p < N) (b i : Nat) :
    (ComponentStatus.activate W N p b).testBit i =
      (decide (i < W) && (b.testBit i || decide (N - 1 - p = i))) := by
  unfold ComponentStatus.activate
  rw [BitPosition_eq_two_pow N p h, Nat.testBit_mod_two_pow, Nat.testBit_or, Nat.testBit_two_pow]

theorem testBit_deactivate {W N p : Nat} (h : p < N) (hN : N ≤ 64) (b i : Nat) :
    (ComponentStatus.deactivate W N p b).testBit i =
      (decide (i < W) && (b.testBit i && (decide (i < 64) && !decide (N - 1 - p = i)))) := by
  unfold ComponentStatus.deactivate
  have hlt : 2 ^ (N - 1 - p) < 2 ^ 64 := Nat.pow_lt_pow_right (by decide) (by omega)
  have e : 2 ^ 64 - 1 - BitPosition p N = 2 ^ 64 - (2 ^ (N - 1 - p) + 1) := by
    rw [BitPosition_eq_two_pow N p h]; omega
  rw [e, Nat.testBit_mod_two_pow, Nat.testBit_and, Nat.testBit_two_pow_sub_succ hlt,
    Nat.testBit_two_pow]

theorem isActive_activate {W N p q : Nat} (hp : p < N) (hq : q < N) (hW : N ≤ W) (b : Nat) :
    ComponentStatus.isActive N q (ComponentStatus.activate W N p b) =
      (decide (p = q) || ComponentStatus.isActive N q b) := by
  rw [isActive_eq_testBit hq, isActive_eq_testBit hq, testBit_activate hp]
  have h1 : decide (N - 1 - q < W) = true := by simp; omega
  have h2 : decide (N - 1 - p = N - 1 - q) = decide (p = q) := by
    apply decide_eq_decide.mpr; omega
  rw [h1, h2, Bool.true_and, Bool.or_comm]

theorem isActive_deactivate {W N p q : Nat} (hp : p < N) (hq : q < N) (hN : N ≤ 64)
    (hW : N ≤ W) (b : Nat) :
    ComponentStatus.isActive N q (ComponentStatus.deactivate W N p b) =
      (!decide (p = q) && ComponentStatus.isActive N q b) := by
  rw [isActive_eq_testBit hq, isActive_eq_testBit hq, testBit_deactivate hp hN]
  have h1 : decide (N - 1 - q < W) = true := by simp; omega
  have h2 : decide (N - 1 - p = N - 1 - q) = decide (p = q) := by
    apply decide_eq_decide.mpr; omega
  have h3 : decide (N - 1 - q < 64) = true := by simp; omega
  rw [h1, h2, h3, Bool.true_and, Bool.true_and, Bool.and_comm]

theorem status_bits_ge (int128 : Bool) (K : Nat) : K + 1 ≤ World.status_bits int128 K :=
  capacity_ge int128 (K + 1)

/-- What the fold of `deactivate` over a list of kinds leaves of a status entry. -/
theorem isActive_foldl_deactivate {int128 : Bool} {K : Nat} (hK : K < 64) {q : Nat}
    (hq : q < K + 1) : ∀ (L : List Nat) (s : Nat), (∀ c ∈ L, c < K) →
    ComponentStatus.isActive (K + 1) q
        (L.foldl (fun b c =>
          ComponentStatus.deactivate (World.status_bits int128 K) (K + 1) (c + 1) b) s) =
      (ComponentStatus.isActive (K + 1) q s && L.all fun c => !decide (c + 1 = q))
  | [], s, _ => by simp
  | c :: L, s, h => by
    have hc : c < K := h c (List.mem_cons_self _ _)
    rw [List.foldl_cons, isActive_foldl_deactivate hK hq L _
      (fun d hd => h d (List.mem_cons_of_mem _ hd)),
      isActive_deactivate (by omega) hq (by omega) (status_bits_ge int128 K), List.all_cons]
    cases ComponentStatus.isActive (K + 1) q s <;> simp

theorem isActive_deactivate_all_exist {int128 : Bool} {K : Nat} (hK : K < 64) (s : Nat) :
    ComponentStatus.isActive (K + 1) 0 (World.deactivate_all int128 K s) =
      ComponentStatus.isActive (K + 1) 0 s := by
  unfold World.deactivate_all
  rw [isActive_foldl_deactivate hK (Nat.succ_pos K) _ _ (fun c hc => List.mem_range.mp hc)]
  simp

theorem isActive_deactivate_all_kind {int128 : Bool} {K : Nat} (hK : K < 64) {c : Nat}
    (hc : c < K) (s : Nat) :
    ComponentStatus.isActive (K + 1) (c + 1) (World.deactivate_all int128 K s) = false := by
  unfold World.deactivate_all
  rw [isActive_foldl_deactivate hK (by omega) _ _ (fun c hc => List.mem_range.mp hc)]
  have : (List.range K).all (fun d => !decide (d + 1 = c + 1)) = false := by
    rw [List.all_eq_false]
    exact ⟨c, List.mem_range.mpr hc, by simp⟩
  rw [this, Bool.and_false]

/-! ## Table sizes -/

theorem length_resize {β : Type} (l : List β) (n : Nat) (d : β) : (resize l n d).length = n := by
  simp [resize, List.length_take]; omega

theorem getElem?_resize_of_lt {β : Type} (l : List β) (n : Nat) (d : β) {i : Nat}
    (hi : i < l.length) (hn : l.length ≤ n) : (resize l n d)[i]? = l[i]? := by
  unfold resize
  rw [List.take_of_length_le hn, List.getElem?_append_left hi]

theorem getElem?_resize_of_ge {β : Type} (l : List β) (n : Nat) (d : β) {i : Nat}
    (hi : l.length ≤ i) (hn : i < n) : (resize l n d)[i]? = some d := by
  unfold resize
  have hl : l.length ≤ n := by omega
  rw [List.take_of_length_le hl, List.getElem?_append_right hi,
    List.getElem?_replicate_of_lt (by omega)]

section
variable {α : Type} [Inhabited α]

theorem WF_increase_capacity {K : Nat} {w : World α} (h : w.tables.length = K) (n : Nat) :
    World.WF K (World.increase_capacity w n) := by
  refine ⟨length_resize _ _ _, by simpa [World.increase_capacity] using h, ?_⟩
  intro col hcol
  simp only [World.increase_capacity, List.mem_map] at hcol
  obtain ⟨c0, _, rfl⟩ := hcol
  exact length_resize _ _ _

theorem Inv_new (K : Nat) : World.Inv K (World.new K : World α) := by
  refine ⟨WF_increase_capacity (by simp) _, ?_⟩
  simp [World.new, World.increase_capacity, World.defaultTableCapacity]

end

theorem live_of_getElem? {α : Type} {K : Nat} {w : World α} {i s : Nat}
    (h : w.status[i]? = some s) :
    World.live K w i = ComponentStatus.isActive (K + 1) 0 s := by
  simp [World.live, h]

/-- The scan of `get_next_entity_id` ends inside the table: it returns the first slot from
`i` on, below the capacity and at most `number_of_entities`, whose "exists" bit is clear,
and `0` when there is none. -/
theorem get_next_entity_id_loop_spec {α : Type} {K : Nat} {w : World α}
    (hlen : w.status.length = w.tables_capacity) :
    ∀ (fuel i : Nat), i + fuel = w.tables_capacity →
    ∃ r, World.get_next_entity_id.loop K w fuel i = some r ∧
      ((i ≤ r ∧ r < w.tables_capacity ∧ r ≤ w.number_of_entities ∧ World.live K w r = false ∧
          ∀ j, i ≤ j → j < r → World.live K w j = true) ∨
        (r = 0 ∧ ∀ j, i ≤ j → j < w.tables_capacity → j ≤ w.number_of_entities →
          World.live K w j = true))
  | 0, i, h => by
    refine ⟨0, rfl, Or.inr ⟨rfl, ?_⟩⟩
    intro j h1 h2 _
    omega
  | fuel + 1, i, h => by
    unfold World.get_next_entity_id.loop
    by_cases hc : i < w.tables_capacity ∧ i ≤ w.number_of_entities
    · rw [if_pos hc]
      have hi : i < w.status.length := by omega
      rw [List.getElem?_eq_getElem hi]
      simp only
      have hl := live_of_getElem? (K := K) (List.getElem?_eq_getElem hi)
      by_cases ha : ComponentStatus.isActive (K + 1) 0 w.status[i] = true
      · simp only [ha, Bool.not_true, Bool.false_eq_true, if_false]
        obtain ⟨r, hr, hspec⟩ := get_next_entity_id_loop_spec hlen fuel (i + 1) (by omega)
        refine ⟨r, hr, ?_⟩
        have hstep : ∀ j, i ≤ j → j ≠ i → i + 1 ≤ j := by intro j h1 h2; omega
        rcases hspec with ⟨h1, h2, h3, h4, h5⟩ | ⟨h1, h2⟩
        · refine Or.inl ⟨by omega, h2, h3, h4, ?_⟩
          intro j hj1 hj2
          by_cases hji : j = i
          · subst hji; rw [hl, ha]
          · exact h5 j (hstep j hj1 hji) hj2
        · refine Or.inr ⟨h1, ?_⟩
          intro j hj1 hj2 hj3
          by_cases hji : j = i
          · subst hji; rw [hl, ha]
          · exact h2 j (hstep j hj1 hji) hj2 hj3
      · have ha' : ComponentStatus.isActive (K + 1) 0 w.status[i] = false := by
          simpa using ha
        simp only [ha', Bool.not_false, if_true]
        refine ⟨i, rfl, Or.inl ⟨le_refl _, hc.1, hc.2, by rw [hl, ha'], ?_⟩⟩
        intro j h1 h2
        omega
    · rw [if_neg hc]
      refine ⟨0, rfl, Or.inr ⟨rfl, ?_⟩⟩
      intro j h1 h2 h3
      exact absurd ⟨by omega, by omega⟩ hc

section
variable {α : Type} [Inhabited α]

/-- The increment of a counter that does not exceed the length of the status table is the
successor. -/
theorem increment_of_le {α : Type} {w : World α} (h : w.number_of_entities ≤ w.status.length) :
    World.increment w = w.number_of_entities + 1 := by
  unfold World.increment
  split_ifs with hlt
  · exact Nat.mod_eq_of_lt (by omega)
  · rfl

/-- `new_entity` on a full table: the tables double and the slot `number_of_entities + 1`
(counted before the call) is claimed. -/
theorem new_entity_grow (int128 : Bool) {K : Nat} {w : World α} (h : World.Inv K w)
    (hfull : w.number_of_entities = w.tables_capacity) :
    World.new_entity int128 K w =
      some ({ World.increase_capacity { w with number_of_entities := w.number_of_entities + 1 }
                (w.tables_capacity * 2) with
              status := (resize w.status (w.tables_capacity * 2) ComponentStatus.init).set
                (w.number_of_entities + 1) (World.claimed int128 K ComponentStatus.init) },
            w.number_of_entities + 1) := by
  obtain ⟨⟨hlen, _, _⟩, hcap⟩ := h
  have hget : (resize w.status (w.tables_capacity * 2) ComponentStatus.init)[
      w.number_of_entities + 1]? = some ComponentStatus.init :=
    getElem?_resize_of_ge _ _ _ (by omega) (by omega)
  have hinc : World.increment w = w.tables_capacity + 1 := by
    rw [increment_of_le (by omega), hfull]
  simp only [World.new_entity, World.get_next_entity_id, hfull, if_true, World.increase_capacity,
    World.claimed, hinc]
  rw [hfull] at hget
  simp only [hget]

/-- `new_entity` on a table that is not full: the slot found by the scan is claimed. -/
theorem new_entity_scan (int128 : Bool) {K : Nat} {w : World α} (h : World.Inv K w)
    (hfull : w.number_of_entities ≠ w.tables_capacity) :
    ∃ r s, World.get_next_entity_id.loop K w w.tables_capacity 0 = some r ∧
      r < w.tables_capacity ∧ w.status[r]? = some s ∧
      World.new_entity int128 K w =
        some ({ w with
                number_of_entities := World.increment w
                status := w.status.set r (World.claimed int128 K s) }, r) := by
  obtain ⟨⟨hlen, _, _⟩, hcap⟩ := h
  obtain ⟨r, hr, hspec⟩ := get_next_entity_id_loop_spec (K := K) hlen w.tables_capacity 0
    (by omega)
  have hrlt : r < w.tables_capacity := by
    rcases hspec with ⟨_, h2, _⟩ | ⟨h1, _⟩
    · exact h2
    · omega
  have hr' : r < w.status.length := by omega
  refine ⟨r, w.status[r], hr, hrlt, List.getElem?_eq_getElem hr', ?_⟩
  have hne : r ≠ w.tables_capacity := by omega
  simp only [World.new_entity, World.get_next_entity_id, hfull, if_false, hr, hne,
    List.getElem?_eq_getElem hr', World.claimed]

end

/-! ## Counting slots -/

theorem countP_set_of_eq {β : Type} (p : β → Bool) (l : List β) (i : Nat) (a : β)
    (h : i < l.length) (e : p a = p l[i]) : (l.set i a).countP p = l.countP p := by
  have hle := List.boole_getElem_le_countP p l i h
  rw [List.countP_set p l i a h, e]
  omega

theorem countP_set_of_gain {β : Type} (p : β → Bool) (l : List β) (i : Nat) (a : β)
    (h : i < l.length) (e0 : p l[i] = false) (e1 : p a = true) :
    (l.set i a).countP p = l.countP p + 1 := by
  rw [List.countP_set p l i a h, e0, e1]
  simp

theorem countP_set_of_loss {β : Type} (p : β → Bool) (l : List β) (i : Nat) (a : β)
    (h : i < l.length) (e0 : p l[i] = true) (e1 : p a = false) :
    (l.set i a).countP p + 1 = l.countP p := by
  have hle := List.boole_getElem_le_countP p l i h
  rw [e0] at hle
  rw [List.countP_set p l i a h, e0, e1]
  simp only [if_true, Bool.false_eq_true, if_false] at hle ⊢
  omega

/-- Pigeonhole: when the slots `0 .. n` all satisfy `p`, more than `n` slots do. -/
theorem lt_countP_of_initial {β : Type} (p : β → Bool) (l : List β) (n : Nat)
    (hn : n < l.length) (h : ∀ j (hj : j < l.length), j ≤ n → p l[j] = true) :
    n < l.countP p := by
  have e : l.countP p = (l.take (n + 1)).countP p + (l.drop (n + 1)).countP p := by
    rw [← List.countP_append, List.take_append_drop]
  have hall : (l.take (n + 1)).countP p = (l.take (n + 1)).length := by
    rw [List.countP_eq_length]
    intro a ha
    obtain ⟨j, hj, rfl⟩ := List.getElem_of_mem ha
    rw [List.getElem_take]
    rw [List.length_take] at hj
    exact h j (by omega) (by omega)
  rw [List.length_take] at hall
  omega

theorem countP_resize_init {β : Type} (p : β → Bool) (l : List β) (n : Nat) (d : β)
    (hn : l.length ≤ n) (hd : p d = false) : (resize l n d).countP p = l.countP p := by
  unfold resize
  rw [List.take_of_length_le hn, List.countP_append]
  have : (List.replicate (n - l.length) d).countP p = 0 := by
    rw [List.countP_eq_zero]
    intro a ha
    rw [(List.mem_replicate.mp ha).2, hd]
    simp
  omega

/-! ## The operations keep the tables well-formed -/

theorem isActive_claimed_exist {int128 : Bool} {K : Nat} (hK : K < 64) (s : Nat) :
    ComponentStatus.isActive (K + 1) 0 (World.claimed int128 K s) = true := by
  unfold World.claimed
  rw [isActive_deactivate_all_exist hK,
    isActive_activate (Nat.succ_pos K) (Nat.succ_pos K) (status_bits_ge int128 K)]
  simp

theorem isActive_claimed_kind {int128 : Bool} {K : Nat} (hK : K < 64) {c : Nat} (hc : c < K)
    (s : Nat) : ComponentStatus.isActive (K + 1) (c + 1) (World.claimed int128 K s) = false :=
  isActive_deactivate_all_kind hK hc _

theorem isActive_init (N p : Nat) : ComponentStatus.isActive N p ComponentStatus.init = false := by
  simp [ComponentStatus.isActive, ComponentStatus.init]

theorem WF_set_status {α : Type} {K : Nat} {w : World α} (h : World.WF K w) (i s n : Nat) :
    World.WF K { w with status := w.status.set i s, number_of_entities := n } := by
  obtain ⟨h1, h2, h3⟩ := h
  exact ⟨by simpa using h1, h2, h3⟩

theorem add_eq_some {α : Type} {int128 : Bool} {K : Nat} {w w' : World α} {c idx : Nat} {v : α}
    (h : World.add int128 K w c idx v = some w') :
    ∃ col s, w.tables[c]? = some col ∧ idx < col.length ∧ w.status[idx]? = some s ∧
      w' = { w with
        tables := w.tables.set c (col.set idx v)
        status := w.status.set idx
          (ComponentStatus.activate (World.status_bits int128 K) (K + 1) (c + 1) s) } := by
  unfold World.add at h
  split at h
  · exact absurd h (by simp)
  · rename_i col hcol
    split at h
    · rename_i hidx
      split at h
      · exact absurd h (by simp)
      · rename_i s hs
        exact ⟨col, s, hcol, hidx, hs, (Option.some.inj h).symm⟩
    · exact absurd h (by simp)

theorem remove_eq_some {α : Type} {int128 : Bool} {K : Nat} {w w' : World α} {c idx : Nat}
    (h : World.remove int128 K w c idx = some w') :
    ∃ s, w.status[idx]? = some s ∧
      w' = { w with
        status := w.status.set idx
          (ComponentStatus.deactivate (World.status_bits int128 K) (K + 1) (c + 1) s) } := by
  unfold World.remove at h
  split at h
  · exact absurd h (by simp)
  · rename_i s hs
    exact ⟨s, hs, (Option.some.inj h).symm⟩

theorem delete_entity_eq_some {α : Type} {int128 : Bool} {K : Nat} {w w' : World α} {idx : Nat}
    (h : World.delete_entity int128 K w idx = some w') :
    ∃ s, w.status[idx]? = some s ∧
      w' = { w with
        number_of_entities :=
          if w.number_of_entities = 0 then 2 ^ 64 - 1 else w.number_of_entities - 1
        status := w.status.set idx
          (ComponentStatus.deactivate (World.status_bits int128 K) (K + 1) 0 s) } := by
  unfold World.delete_entity at h
  simp only at h
  split at h
  · exact absurd h (by simp)
  · rename_i s hs
    exact ⟨s, hs, (Option.some.inj h).symm⟩

theorem add_eq_of_WF {α : Type} (int128 : Bool) {K : Nat} {w : World α} (h : World.WF K w)
    {c idx : Nat} (hc : c < K) (hidx : idx < w.tables_capacity) (v : α) :
    ∃ col s, w.tables[c]? = some col ∧ idx < col.length ∧ w.status[idx]? = some s ∧
      World.add int128 K w c idx v = some { w with
        tables := w.tables.set c (col.set idx v)
        status := w.status.set idx
          (ComponentStatus.activate (World.status_bits int128 K) (K + 1) (c + 1) s) } := by
  obtain ⟨h1, h2, h3⟩ := h
  have hc' : c < w.tables.length := by omega
  have hi' : idx < w.status.length := by omega
  have hcol : w.tables[c].length = w.tables_capacity := h3 _ (List.getElem_mem _)
  refine ⟨w.tables[c], w.status[idx], List.getElem?_eq_getElem hc', by omega,
    List.getElem?_eq_getElem hi', ?_⟩
  unfold World.add
  simp only [List.getElem?_eq_getElem hc', List.getElem?_eq_getElem hi']
  rw [if_pos (by omega)]

theorem add_total {α : Type} (int128 : Bool) {K : Nat} {w : World α} (h : World.WF K w)
    {c idx : Nat} (hc : c < K) (hidx : idx < w.tables_capacity) (v : α) :
    ∃ w', World.add int128 K w c idx v = some w' := by
  obtain ⟨_, _, _, _, _, hadd⟩ := add_eq_of_WF int128 h hc hidx v
  exact ⟨_, hadd⟩

theorem WF_add {α : Type} {int128 : Bool} {K : Nat} {w w' : World α} {c idx : Nat} {v : α}
    (hw : World.WF K w) (h : World.add int128 K w c idx v = some w') :
    World.WF K w' ∧ w'.tables_capacity = w.tables_capacity ∧
      w'.number_of_entities = w.number_of_entities := by
  obtain ⟨col, s, hcol, hidx, hs, rfl⟩ := add_eq_some h
  obtain ⟨h1, h2, h3⟩ := hw
  refine ⟨⟨by simpa using h1, by simpa using h2, ?_⟩, rfl, rfl⟩
  intro col' hcol'
  rcases List.mem_or_eq_of_mem_set hcol' with hm | rfl
  · exact h3 _ hm
  · rw [List.length_set]
    exact h3 _ (List.getElem?_mem hcol)

theorem WF_remove {α : Type} {int128 : Bool} {K : Nat} {w w' : World α} {c idx : Nat}
    (hw : World.WF K w) (h : World.remove int128 K w c idx = some w') :
    World.WF K w' ∧ w'.tables_capacity = w.tables_capacity ∧
      w'.number_of_entities = w.number_of_entities := by
  obtain ⟨s, hs, rfl⟩ := remove_eq_some h
  exact ⟨WF_set_status hw _ _ _, rfl, rfl⟩

theorem WF_delete_entity {α : Type} {int128 : Bool} {K : Nat} {w w' : World α} {idx : Nat}
    (hw : World.WF K w) (h : World.delete_entity int128 K w idx = some w') :
    World.WF K w' ∧ w'.tables_capacity = w.tables_capacity := by
  obtain ⟨s, hs, rfl⟩ := delete_entity_eq_some h
  exact ⟨WF_set_status hw _ _ _, rfl⟩

section
variable {α : Type} [Inhabited α]

/-- On well-formed tables `new_entity` ends inside them: the count is incremented, the
capacity doubles exactly when the table was full, and the id is below the new capacity. -/
theorem new_entity_Inv (int128 : Bool) {K : Nat} {w : World α} (h : World.Inv K w) :
    ∃ w' id, World.new_entity int128 K w = some (w', id) ∧ World.Inv K w' ∧
      id < w'.tables_capacity ∧ w'.number_of_entities = World.increment w ∧
      w'.tables_capacity =
        (if w.number_of_entities = w.tables_capacity then w.tables_capacity * 2
          else w.tables_capacity) := by
  by_cases hfull : w.number_of_entities = w.tables_capacity
  · refine ⟨_, _, new_entity_grow int128 h hfull, ⟨?_, ?_⟩, ?_,
      (increment_of_le (by rw [h.1.1, hfull])).symm, ?_⟩
    · have := WF_set_status (WF_increase_capacity (K := K)
        (w := { w with number_of_entities := w.number_of_entities + 1 }) h.1.2.1
        (w.tables_capacity * 2)) (w.number_of_entities + 1)
        (World.claimed int128 K ComponentStatus.init) (w.number_of_entities + 1)
      exact this
    · have := h.2
      show 2 ≤ w.tables_capacity * 2
      omega
    · have := h.2
      show w.number_of_entities + 1 < w.tables_capacity * 2
      omega
    · rw [if_pos hfull]; rfl
  · obtain ⟨r, s, _, hr, _, hnew⟩ := new_entity_scan int128 h hfull
    refine ⟨_, _, hnew, ⟨WF_set_status h.1 _ _ _, h.2⟩, hr, rfl, ?_⟩
    rw [if_neg hfull]

end

/-! ## The operations keep the live count -/

theorem Counted_add {α : Type} {int128 : Bool} {K : Nat} {w w' : World α}
    {c idx : Nat} {v : α} (hc : c < K) (hw : World.Counted K w)
    (h : World.add int128 K w c idx v = some w') : World.Counted K w' := by
  obtain ⟨hwf, hcap, hn⟩ := WF_add hw.1.1 h
  refine ⟨⟨hwf, by rw [hcap]; exact hw.1.2⟩, ?_⟩
  obtain ⟨col, s, _, _, hs, rfl⟩ := add_eq_some h
  obtain ⟨hi, rfl⟩ := List.getElem?_eq_some.mp hs
  show w.number_of_entities = _
  rw [hw.2]
  unfold World.live_count
  refine (countP_set_of_eq _ _ _ _ hi ?_).symm
  rw [isActive_activate (by omega) (Nat.succ_pos K) (status_bits_ge int128 K)]
  simp

theorem Counted_remove {α : Type} {int128 : Bool} {K : Nat} (hK : K < 64) {w w' : World α}
    {c idx : Nat} (hc : c < K) (hw : World.Counted K w)
    (h : World.remove int128 K w c idx = some w') : World.Counted K w' := by
  obtain ⟨hwf, hcap, hn⟩ := WF_remove hw.1.1 h
  refine ⟨⟨hwf, by rw [hcap]; exact hw.1.2⟩, ?_⟩
  obtain ⟨s, hs, rfl⟩ := remove_eq_some h
  obtain ⟨hi, rfl⟩ := List.getElem?_eq_some.mp hs
  show w.number_of_entities = _
  rw [hw.2]
  unfold World.live_count
  refine (countP_set_of_eq _ _ _ _ hi ?_).symm
  rw [isActive_deactivate (by omega) (Nat.succ_pos K) (by omega) (status_bits_ge int128 K)]
  simp

/-- Deleting a live id of a counted world: the count goes down by one, without wrapping. -/
theorem Counted_delete_entity {α : Type} {int128 : Bool} {K : Nat} (hK : K < 64)
    {w w' : World α} {idx : Nat} (hw : World.Counted K w) (hlive : World.live K w idx = true)
    (h : World.delete_entity int128 K w idx = some w') :
    World.Counted K w' ∧ w'.number_of_entities + 1 = w.number_of_entities ∧
      w'.tables_capacity = w.tables_capacity ∧ World.live K w' idx = false ∧
      ∀ j, j ≠ idx → World.live K w' j = World.live K w j := by
  obtain ⟨hwf, hcap⟩ := WF_delete_entity hw.1.1 h
  obtain ⟨s, hs, rfl⟩ := delete_entity_eq_some h
  obtain ⟨hi, rfl⟩ := List.getElem?_eq_some.mp hs
  have hact : ComponentStatus.isActive (K + 1) 0 w.status[idx] = true := by
    rw [← live_of_getElem? hs]; exact hlive
  have hoff : ComponentStatus.isActive (K + 1) 0
      (ComponentStatus.deactivate (World.status_bits int128 K) (K + 1) 0 w.status[idx]) =
      false := by
    rw [isActive_deactivate (Nat.succ_pos K) (Nat.succ_pos K) (by omega)
      (status_bits_ge int128 K)]
    simp
  have hcount := countP_set_of_loss (fun s => ComponentStatus.isActive (K + 1) 0 s) w.status idx
    _ hi hact hoff
  have hn := hw.2
  unfold World.live_count at hn
  have hpos : w.number_of_entities ≠ 0 := by omega
  refine ⟨⟨⟨hwf, hw.1.2⟩, ?_⟩, ?_, rfl, ?_, ?_⟩
  · show (if w.number_of_entities = 0 then 2 ^ 64 - 1 else w.number_of_entities - 1) = _
    rw [if_neg hpos]
    unfold World.live_count
    show _ = List.countP _ (w.status.set idx _)
    omega
  · show (if w.number_of_entities = 0 then 2 ^ 64 - 1 else w.number_of_entities - 1) + 1 = _
    rw [if_neg hpos]
    omega
  · have : (w.status.set idx (ComponentStatus.deactivate (World.status_bits int128 K) (K + 1) 0
        w.status[idx]))[idx]? = some (ComponentStatus.deactivate (World.status_bits int128 K)
        (K + 1) 0 w.status[idx]) := List.getElem?_set_self hi
    rw [live_of_getElem? (w := { w with status := _, number_of_entities := _ }) this, hoff]
  · intro j hj
    unfold World.live
    show (match (w.status.set idx _)[j]? with | none => false | some s => _) = _
    rw [List.getElem?_set_ne (Ne.symm hj)]

theorem live_congr {α : Type} {K : Nat} {w w' : World α} {j : Nat}
    (h : w'.status[j]? = w.status[j]?) : World.live K w' j = World.live K w j := by
  unfold World.live
  rw [h]

theorem live_of_resize {α : Type} {K : Nat} {w w' : World α} {n : Nat}
    (h : w'.status = resize w.status n ComponentStatus.init) (hn : w.status.length ≤ n)
    (j : Nat) : World.live K w' j = World.live K w j := by
  unfold World.live
  rw [h]
  by_cases hj : j < w.status.length
  · rw [getElem?_resize_of_lt _ _ _ hj hn]
  · have hnone : w.status[j]? = none := List.getElem?_eq_none (by omega)
    rw [hnone]
    by_cases hjn : j < n
    · rw [getElem?_resize_of_ge _ _ _ (by omega) hjn]
      exact isActive_init _ _
    · have : (resize w.status n ComponentStatus.init)[j]? = none :=
        List.getElem?_eq_none (by rw [length_resize]; omega)
      rw [this]

theorem live_count_of_resize {α : Type} {K : Nat} {w w' : World α} {n : Nat}
    (h : w'.status = resize w.status n ComponentStatus.init) (hn : w.status.length ≤ n) :
    World.live_count K w' = World.live_count K w := by
  unfold World.live_count
  rw [h]
  exact countP_resize_init _ _ _ _ hn (isActive_init _ _)

theorem live_count_of_gain {α : Type} {K : Nat} {w w' : World α} {i s : Nat}
    (h : w'.status = w.status.set i s) (hi : i < w.status.length)
    (h0 : World.live K w i = false) (h1 : ComponentStatus.isActive (K + 1) 0 s = true) :
    World.live_count K w' = World.live_count K w + 1 := by
  unfold World.live_count
  rw [h]
  refine countP_set_of_gain _ _ _ _ hi ?_ h1
  rw [← live_of_getElem? (List.getElem?_eq_getElem hi)]
  exact h0

theorem live_count_le {α : Type} (K : Nat) (w : World α) :
    World.live_count K w ≤ w.status.length := by
  unfold World.live_count
  exact List.countP_le_length _

theorem lt_live_count_of_initial {α : Type} {K : Nat} {w : World α} {n : Nat}
    (hn : n < w.status.length) (h : ∀ j, j ≤ n → World.live K w j = true) :
    n < World.live_count K w := by
  unfold World.live_count
  refine lt_countP_of_initial _ _ _ hn ?_
  intro j hj hjn
  have := h j hjn
  rwa [live_of_getElem? (List.getElem?_eq_getElem hj)] at this

section
variable {α : Type} [Inhabited α]

/-- In a counted world `new_entity` claims a slot whose "exists" bit was clear, sets that bit
and no other, and keeps the count; when the table is not full the slot is the lowest one
whose bit is clear. -/
theorem new_entity_Counted (int128 : Bool) {K : Nat} (hK : K < 64) {w : World α}
    (hw : World.Counted K w) :
    ∃ w' id, World.new_entity int128 K w = some (w', id) ∧ World.Counted K w' ∧
      World.live K w id = false ∧ World.live K w' id = true ∧
      (∀ j, j ≠ id → World.live K w' j = World.live K w j) ∧
      (w.number_of_entities ≠ w.tables_capacity → ∀ j, j < id → World.live K w j = true) := by
  obtain ⟨hinv, hn⟩ := hw
  have hlen := hinv.1.1
  have hcap := hinv.2
  obtain ⟨w', id, hnew', hinv', _, hn', _⟩ := new_entity_Inv int128 hinv
  rw [increment_of_le (by have := live_count_le K w; omega)] at hn'
  have hnew0 := hnew'
  by_cases hfull : w.number_of_entities = w.tables_capacity
  · have hnew := new_entity_grow int128 hinv hfull
    rw [hnew] at hnew'
    obtain ⟨hw', hid⟩ := Prod.mk.inj (Option.some.inj hnew')
    have hst : w'.status = (resize w.status (w.tables_capacity * 2) ComponentStatus.init).set
        (w.number_of_entities + 1) (World.claimed int128 K ComponentStatus.init) := by
      rw [← hw']
    have hlen2 : (resize w.status (w.tables_capacity * 2) ComponentStatus.init).length =
        w.tables_capacity * 2 := length_resize _ _ _
    have hi : w.number_of_entities + 1 <
        (resize w.status (w.tables_capacity * 2) ComponentStatus.init).length := by omega
    -- the world after the resize, before the slot is claimed
    have hmid : ∀ j, World.live K ({ w with
        status := resize w.status (w.tables_capacity * 2) ComponentStatus.init } : World α) j =
        World.live K w j := fun j => live_of_resize rfl (by omega) j
    have hdead : World.live K w (w.number_of_entities + 1) = false := by
      unfold World.live
      rw [List.getElem?_eq_none (by omega)]
    refine ⟨w', id, hnew0, ⟨hinv', ?_⟩, ?_, ?_, ?_, fun h => absurd hfull h⟩
    · rw [hn', live_count_of_gain (w := { w with
        status := resize w.status (w.tables_capacity * 2) ComponentStatus.init }) hst hi
        (by rw [hmid]; exact hdead) (isActive_claimed_exist hK _),
        live_count_of_resize (w := w) rfl (by omega), hn]
    · rw [← hid]; exact hdead
    · rw [← hid, live_of_getElem? (by rw [hst]; exact List.getElem?_set_self hi)]
      exact isActive_claimed_exist hK _
    · intro j hj
      rw [← hmid j]
      refine live_congr ?_
      rw [hst, List.getElem?_set_ne (by rw [hid]; exact Ne.symm hj)]
  · obtain ⟨r, s, hr, hrlt, hs, hnew⟩ := new_entity_scan int128 hinv hfull
    rw [hnew] at hnew'
    obtain ⟨hw', hid⟩ := Prod.mk.inj (Option.some.inj hnew')
    subst hid
    have hst : w'.status = w.status.set r (World.claimed int128 K s) := by rw [← hw']
    have hi : r < w.status.length := by omega
    obtain ⟨r', hr', hspec⟩ := get_next_entity_id_loop_spec (K := K) hlen w.tables_capacity 0
      (by omega)
    rw [hr] at hr'
    obtain rfl := Option.some.inj hr'
    have hnlt : w.number_of_entities < w.tables_capacity := by
      have := live_count_le K w
      omega
    have hfound : World.live K w r = false ∧ ∀ j, j < r → World.live K w j = true := by
      rcases hspec with ⟨_, _, _, h4, h5⟩ | ⟨_, h2⟩
      · exact ⟨h4, fun j hj => h5 j (Nat.zero_le j) hj⟩
      · exfalso
        have := lt_live_count_of_initial (K := K) (w := w) (n := w.number_of_entities)
          (by omega) (fun j hjn => h2 j (Nat.zero_le j) (by omega) hjn)
        omega
    refine ⟨w', r, hnew0, ⟨hinv', ?_⟩, hfound.1, ?_, ?_, fun _ => hfound.2⟩
    · rw [hn', live_count_of_gain hst hi hfound.1 (isActive_claimed_exist hK _), hn]
    · rw [live_of_getElem? (by rw [hst]; exact List.getElem?_set_self hi)]
      exact isActive_claimed_exist hK _
    · intro j hj
      refine live_congr ?_
      rw [hst, List.getElem?_set_ne (Ne.symm hj)]

end

/-! ## Call sequences -/

section
variable {α : Type} [Inhabited α]

theorem Inv_step {int128 : Bool} {K : Nat} {w : World α} {op : Op α} {r : World α × List Nat}
    (hw : World.Inv K w) (h : World.step int128 K w op = some r) :
    World.Inv K r.1 ∧ w.tables_capacity ≤ r.1.tables_capacity ∧
      ∀ id ∈ r.2, id < r.1.tables_capacity := by
  cases op with
  | new_entity =>
    obtain ⟨w', id, hnew, hinv, hid, _, hcap⟩ := new_entity_Inv int128 hw
    simp only [World.step, hnew, Option.map_some'] at h
    obtain rfl := Option.some.inj h
    refine ⟨hinv, ?_, by simpa using hid⟩
    show w.tables_capacity ≤ w'.tables_capacity
    rw [hcap]
    split_ifs <;> omega
  | delete_entity idx =>
    simp only [World.step] at h
    split_ifs at h
    cases hd : World.delete_entity int128 K w idx with
    | none => rw [hd] at h; exact absurd h (by simp)
    | some w' =>
      rw [hd] at h
      obtain rfl := Option.some.inj h
      obtain ⟨hwf, hcap⟩ := WF_delete_entity hw.1 hd
      exact ⟨⟨hwf, by rw [hcap]; exact hw.2⟩, by show _ ≤ w'.tables_capacity; omega, by simp⟩
  | add c idx v =>
    simp only [World.step] at h
    split_ifs at h
    cases hd : World.add int128 K w c idx v with
    | none => rw [hd] at h; exact absurd h (by simp)
    | some w' =>
      rw [hd] at h
      obtain rfl := Option.some.inj h
      obtain ⟨hwf, hcap, _⟩ := WF_add hw.1 hd
      exact ⟨⟨hwf, by rw [hcap]; exact hw.2⟩, by show _ ≤ w'.tables_capacity; omega, by simp⟩
  | remove c idx =>
    simp only [World.step] at h
    split_ifs at h
    cases hd : World.remove int128 K w c idx with
    | none => rw [hd] at h; exact absurd h (by simp)
    | some w' =>
      rw [hd] at h
      obtain rfl := Option.some.inj h
      obtain ⟨hwf, hcap, _⟩ := WF_remove hw.1 hd
      exact ⟨⟨hwf, by rw [hcap]; exact hw.2⟩, by show _ ≤ w'.tables_capacity; omega, by simp⟩

theorem Counted_step {int128 : Bool} {K : Nat} (hK : K < 64) {w : World α} {op : Op α}
    {r : World α × List Nat} (hw : World.Counted K w) (h : World.step int128 K w op = some r) :
    World.Counted K r.1 := by
  cases op with
  | new_entity =>
    obtain ⟨w', id, hnew, hc, _⟩ := new_entity_Counted int128 hK hw
    simp only [World.step, hnew, Option.map_some'] at h
    obtain rfl := Option.some.inj h
    exact hc
  | delete_entity idx =>
    simp only [World.step] at h
    split_ifs at h with hlive
    cases hd : World.delete_entity int128 K w idx with
    | none => rw [hd] at h; exact absurd h (by simp)
    | some w' =>
      rw [hd] at h
      obtain rfl := Option.some.inj h
      exact (Counted_delete_entity hK hw hlive hd).1
  | add c idx v =>
    simp only [World.step] at h
    split_ifs at h with hc
    cases hd : World.add int128 K w c idx v with
    | none => rw [hd] at h; exact absurd h (by simp)
    | some w' =>
      rw [hd] at h
      obtain rfl := Option.some.inj h
      exact Counted_add hc hw hd
  | remove c idx =>
    simp only [World.step] at h
    split_ifs at h with hc
    cases hd : World.remove int128 K w c idx with
    | none => rw [hd] at h; exact absurd h (by simp)
    | some w' =>
      rw [hd] at h
      obtain rfl := Option.some.inj h
      exact Counted_remove hK hc hw hd

theorem Inv_run {int128 : Bool} {K : Nat} : ∀ (ops : List (Op α)) (s s' : World α × List Nat),
    World.Inv K s.1 → (∀ id ∈ s.2, id < s.1.tables_capacity) →
    World.run int128 K s ops = some s' →
    World.Inv K s'.1 ∧ ∀ id ∈ s'.2, id < s'.1.tables_capacity
  | [], s, s', hw, hids, h => by
    obtain rfl := Option.some.inj h
    exact ⟨hw, hids⟩
  | op :: ops, s, s', hw, hids, h => by
    unfold World.run at h
    cases hs : World.step int128 K s.1 op with
    | none => rw [hs] at h; exact absurd h (by simp)
    | some r =>
      rw [hs] at h
      obtain ⟨hinv, hcap, hnew⟩ := Inv_step hw hs
      refine Inv_run ops (r.1, s.2 ++ r.2) s' hinv ?_ h
      intro id hid
      rcases List.mem_append.mp hid with h1 | h2
      · exact lt_of_lt_of_le (hids id h1) hcap
      · exact hnew id h2

theorem Counted_run {int128 : Bool} {K : Nat} (hK : K < 64) :
    ∀ (ops : List (Op α)) (s s' : World α × List Nat),
    World.Counted K s.1 → World.run int128 K s ops = some s' → World.Counted K s'.1
  | [], s, s', hw, h => by
    obtain rfl := Option.some.inj h
    exact hw
  | op :: ops, s, s', hw, h => by
    unfold World.run at h
    cases hs : World.step int128 K s.1 op with
    | none => rw [hs] at h; exact absurd h (by simp)
    | some r =>
      rw [hs] at h
      have hr : World.Counted K r.1 := Counted_step hK hw hs
      exact Counted_run hK ops (r.1, s.2 ++ r.2) s' hr h

theorem Counted_new (K : Nat) : World.Counted K (World.new K : World α) := by
  refine ⟨Inv_new K, ?_⟩
  show 0 = World.live_count K (World.new K : World α)
  rw [World.new, live_count_of_resize (w := (⟨[], List.replicate K [], World.defaultTableCapacity,
    0⟩ : World α)) rfl (Nat.zero_le _)]
  rfl

theorem Reachable_Inv {int128 : Bool} {K : Nat} {w : World α}
    (h : World.Reachable int128 K w) : World.Inv K w := by
  obtain ⟨ops, ids, hrun⟩ := h
  exact (Inv_run ops _ _ (Inv_new K) (by simp) hrun).1

theorem Inv_step_any {int128 : Bool} {K : Nat} {w : World α} {op : Op α}
    {r : World α × List Nat} (hw : World.Inv K w) (h : World.step_any int128 K w op = some r) :
    World.Inv K r.1 := by
  cases op with
  | delete_entity idx =>
    simp only [World.step_any] at h
    cases hd : World.delete_entity int128 K w idx with
    | none => rw [hd] at h; exact absurd h (by simp)
    | some w' =>
      rw [hd] at h
      obtain rfl := Option.some.inj h
      obtain ⟨hwf, hcap⟩ := WF_delete_entity hw.1 hd
      exact ⟨hwf, by rw [hcap]; exact hw.2⟩
  | new_entity =>
    exact (Inv_step hw (show World.step int128 K w Op.new_entity = some r from h)).1
  | add c idx v =>
    exact (Inv_step hw (show World.step int128 K w (Op.add c idx v) = some r from h)).1
  | remove c idx =>
    exact (Inv_step hw (show World.step int128 K w (Op.remove c idx) = some r from h)).1

theorem Inv_run_any {int128 : Bool} {K : Nat} :
    ∀ (ops : List (Op α)) (s s' : World α × List Nat),
    World.Inv K s.1 → World.run_any int128 K s ops = some s' → World.Inv K s'.1
  | [], s, s', hw, h => by
    obtain rfl := Option.some.inj h
    exact hw
  | op :: ops, s, s', hw, h => by
    unfold World.run_any at h
    cases hs : World.step_any int128 K s.1 op with
    | none => rw [hs] at h; exact absurd h (by simp)
    | some r =>
      rw [hs] at h
      have hr : World.Inv K r.1 := Inv_step_any hw hs
      exact Inv_run_any ops (r.1, s.2 ++ r.2) s' hr h

theorem step_any_of_step {int128 : Bool} {K : Nat} {w : World α} {op : Op α}
    {r : World α × List Nat} (h : World.step int128 K w op = some r) :
    World.step_any int128 K w op = some r := by
  cases op with
  | delete_entity idx =>
    simp only [World.step] at h
    split_ifs at h
    exact h
  | new_entity => exact h
  | add c idx v => exact h
  | remove c idx => exact h

theorem run_any_of_run {int128 : Bool} {K : Nat} :
    ∀ (ops : List (Op α)) (s s' : World α × List Nat),
    World.run int128 K s ops = some s' → World.run_any int128 K s ops = some s'
  | [], _, _, h => h
  | op :: ops, s, s', h => by
    unfold World.run at h
    unfold World.run_any
    cases hs : World.step int128 K s.1 op with
    | none => rw [hs] at h; exact absurd h (by simp)
    | some r =>
      rw [hs] at h
      rw [step_any_of_step hs]
      exact run_any_of_run ops _ s' h

/-- The worlds reached with `delete_entity` on live ids only are among those reached with
`delete_entity` on any id. -/
theorem Reachable_any_of_Reachable {int128 : Bool} {K : Nat} {w : World α}
    (h : World.Reachable int128 K w) : World.Reachable_any int128 K w := by
  obtain ⟨ops, ids, hrun⟩ := h
  exact ⟨ops, ids, run_any_of_run ops _ _ hrun⟩

theorem Reachable_any_Inv {int128 : Bool} {K : Nat} {w : World α}
    (h : World.Reachable_any int128 K w) : World.Inv K w := by
  obtain ⟨ops, ids, hrun⟩ := h
  exact Inv_run_any ops _ _ (Inv_new K) hrun

theorem Reachable_Counted {int128 : Bool} {K : Nat} (hK : K < 64) {w : World α}
    (h : World.Reachable int128 K w) : World.Counted K w := by
  obtain ⟨ops, ids, hrun⟩ := h
  exact Counted_run hK ops _ _ (Counted_new K) hrun

end

/-! ## Components of one entity -/

theorem allActive_singleton (K c s : Nat) :
    World.allActive K [c] s = ComponentStatus.isActive (K + 1) (c + 1) s := by
  simp [World.allActive]

theorem has_get_add_self {α : Type} {int128 : Bool} {K : Nat} {w w' : World α} {c idx : Nat}
    {v : α} (hc : c < K) (h : World.add int128 K w c idx v = some w') :
    World.has K w' [c] idx = some true ∧ World.get K w' [c] idx = some (some [v]) := by
  obtain ⟨col, s, hcol, hidx, hs, rfl⟩ := add_eq_some h
  obtain ⟨hi, _⟩ := List.getElem?_eq_some.mp hs
  obtain ⟨hc', _⟩ := List.getElem?_eq_some.mp hcol
  have hact : World.allActive K [c]
      (ComponentStatus.activate (World.status_bits int128 K) (K + 1) (c + 1) s) = true := by
    rw [allActive_singleton,
      isActive_activate (by omega) (by omega) (status_bits_ge int128 K)]
    simp
  constructor
  · simp only [World.has, List.getElem?_set_self hi, hact]
  · simp only [World.get, World.slots, List.getElem?_set_self hi, hact, if_true,
      List.getElem?_set_self hc', List.getElem?_set_self hidx, Option.map_some']

theorem remove_eq_of_lt {α : Type} (int128 : Bool) (K : Nat) {w : World α} {idx : Nat}
    (c : Nat) (hidx : idx < w.status.length) :
    World.remove int128 K w c idx = some { w with
      status := w.status.set idx
        (ComponentStatus.deactivate (World.status_bits int128 K) (K + 1) (c + 1)
          w.status[idx]) } := by
  simp only [World.remove, List.getElem?_eq_getElem hidx]

theorem has_get_remove_self {α : Type} {int128 : Bool} {K : Nat} (hK : K < 64)
    {w w' : World α} {c idx : Nat} (hc : c < K)
    (h : World.remove int128 K w c idx = some w') :
    World.has K w' [c] idx = some false ∧ World.get K w' [c] idx = some none := by
  obtain ⟨s, hs, rfl⟩ := remove_eq_some h
  obtain ⟨hi, _⟩ := List.getElem?_eq_some.mp hs
  have hact : World.allActive K [c]
      (ComponentStatus.deactivate (World.status_bits int128 K) (K + 1) (c + 1) s) = false := by
    rw [allActive_singleton,
      isActive_deactivate (by omega) (by omega) (by omega) (status_bits_ge int128 K)]
    simp
  constructor
  · simp only [World.has, List.getElem?_set_self hi, hact]
  · simp only [World.get, List.getElem?_set_self hi, hact, Bool.false_eq_true, if_false]

/-- The references of `get` exist for declared kinds and an id below the capacity, and they
are the column slots of the requested kinds, in the order requested. -/
theorem slots_of_WF {α : Type} {K : Nat} {w : World α} (hw : World.WF K w) {idx : Nat}
    (hidx : idx < w.tables_capacity) : ∀ (Cs : List Nat), (∀ c ∈ Cs, c < K) →
    ∃ vs : List α, World.slots w Cs idx = some vs ∧ vs.length = Cs.length ∧
      ∀ i c : Nat, Cs[i]? = some c →
        ∃ col : List α, w.tables[c]? = some col ∧ vs[i]? = col[idx]?
  | [], _ => ⟨[], rfl, rfl, by simp⟩
  | c :: Cs, h => by
    obtain ⟨vs, hvs, hlen, hall⟩ := slots_of_WF hw hidx Cs
      (fun d hd => h d (List.mem_cons_of_mem _ hd))
    have hc : c < w.tables.length := by
      have := h c (List.mem_cons_self _ _)
      have := hw.2.1
      omega
    have hcol : idx < w.tables[c].length := by
      rw [hw.2.2 _ (List.getElem_mem _)]
      exact hidx
    refine ⟨w.tables[c][idx] :: vs, ?_, by simp [hlen], ?_⟩
    · simp only [World.slots, List.getElem?_eq_getElem hc, List.getElem?_eq_getElem hcol, hvs,
        Option.map_some']
    · intro i d hd
      cases i with
      | zero =>
        simp only [List.getElem?_cons_zero, Option.some.injEq] at hd
        subst hd
        exact ⟨w.tables[c], List.getElem?_eq_getElem hc, by
          simp [List.getElem?_eq_getElem hcol]⟩
      | succ i =>
        simp only [List.getElem?_cons_succ] at hd ⊢
        exact hall i d hd

section
variable {α : Type} [Inhabited α]

/-- The entry `new_entity` leaves at the returned id is a claimed one. -/
theorem new_entity_status (int128 : Bool) {K : Nat} {w : World α} (h : World.Inv K w) :
    ∃ w' id s, World.new_entity int128 K w = some (w', id) ∧
      w'.status[id]? = some (World.claimed int128 K s) := by
  by_cases hfull : w.number_of_entities = w.tables_capacity
  · have hlen2 : (resize w.status (w.tables_capacity * 2) ComponentStatus.init).length =
        w.tables_capacity * 2 := length_resize _ _ _
    have := h.2
    exact ⟨_, _, _, new_entity_grow int128 h hfull, List.getElem?_set_self (by omega)⟩
  · obtain ⟨r, s, _, hr, _, hnew⟩ := new_entity_scan int128 h hfull
    have := h.1.1
    exact ⟨_, _, _, hnew, List.getElem?_set_self (by omega)⟩

theorem run_append {int128 : Bool} {K : Nat} : ∀ (ops ops' : List (Op α))
    (s : World α × List Nat),
    World.run int128 K s (ops ++ ops') =
      (World.run int128 K s ops).bind fun s' => World.run int128 K s' ops'
  | [], ops', s => rfl
  | op :: ops, ops', s => by
    rw [List.cons_append, World.run, World.run]
    cases World.step int128 K s.1 op with
    | none => rfl
    | some r => exact run_append ops ops' _

/-- The sizes after `n` calls of `new_entity` on a fresh world. -/
theorem run_new_entities (int128 : Bool) (K : Nat) : ∀ n : Nat,
    ∃ (w : World α) (ids : List Nat),
      World.run int128 K (World.new K, []) (List.replicate n Op.new_entity) = some (w, ids) ∧
      World.Inv K w ∧ w.number_of_entities = n ∧
      ∃ k, w.tables_capacity = 8 * 2 ^ k ∧ n ≤ 8 * 2 ^ k ∧ (k = 0 ∨ 8 * 2 ^ (k - 1) < n)
  | 0 => ⟨World.new K, [], rfl, Inv_new K, rfl, 0, rfl, by omega, Or.inl rfl⟩
  | n + 1 => by
    obtain ⟨w, ids, hrun, hinv, hn, k, hcap, hle, hk⟩ := run_new_entities int128 K n
    obtain ⟨w', id, hnew, hinv', _, hn', hcap'⟩ := new_entity_Inv int128 hinv
    rw [increment_of_le (by have := hinv.1.1; omega)] at hn'
    refine ⟨w', ids ++ [id], ?_, hinv', by omega, ?_⟩
    · rw [List.replicate_succ', run_append, hrun]
      simp only [Option.some_bind, World.run, World.step, hnew, Option.map_some']
    · by_cases hfull : w.number_of_entities = w.tables_capacity
      · rw [if_pos hfull] at hcap'
        refine ⟨k + 1, by rw [hcap', hcap, pow_succ]; ring, ?_, Or.inr ?_⟩
        · rw [pow_succ]; omega
        · rw [Nat.add_sub_cancel]; omega
      · rw [if_neg hfull] at hcap'
        refine ⟨k, by rw [hcap', hcap], by omega, ?_⟩
        rcases hk with h0 | h1
        · exact Or.inl h0
        · exact Or.inr (by omega)

end

/-! ## Properties of the specification -/

/-- C1, evaluated where the code departs from it.  On a fresh world of two kinds the first
eight `new_entity` calls return 0 .. 7, leaving slot 8 the lowest one whose "exists" bit is
clear; the ninth call grows the tables and returns 9, the value of `number_of_entities`
after its increment, not 8. -/
theorem new_entity_ninth_call_returns_nine :
    ∃ (w : World Nat) (ids : List Nat),
      World.run true 2 (World.new 2, []) (List.replicate 8 Op.new_entity) = some (w, ids) ∧
      ids = [0, 1, 2, 3, 4, 5, 6, 7] ∧
      (∀ j, j < 8 → World.live 2 w j = true) ∧ World.live 2 w 8 = false ∧
      (World.new_entity true 2 w).map Prod.snd = some 9 := by
  refine ⟨_, _, rfl, ?_, ?_, ?_, ?_⟩ <;> decide

/-- C2, evaluated where the code departs from it.  Kinds {A, B} are the positions 0 and 1;
after `e1 = new_entity()`, `add<A>(e1)`, `e2 = new_entity()`, `add<B>(e2)` the ids are
`e1 = 0` and `e2 = 1`, `view<A>()` visits `[0]`, and `view<B>()` visits `[0, 1]`: its
`begin()` is always the iterator at index 0, although entity 0 has no `B`. -/
theorem view_scenario_visits_entity_without_kind :
    ∃ (w : World Nat) (ids : List Nat),
      World.run true 2 (World.new 2, [])
        [Op.new_entity, Op.add 0 0 11, Op.new_entity, Op.add 1 1 22] = some (w, ids) ∧
      ids = [0, 1] ∧ World.has 2 w [1] 0 = some false ∧
      World.View.iterate 2 w [0] = some [0] ∧ World.View.iterate 2 w [1] = some [0, 1] := by
  refine ⟨_, _, rfl, ?_, ?_, ?_, ?_⟩ <;> decide

/-- C3, evaluated where the code departs from it.  After creating the entities 0, 1, 2 and
deleting entity 0, the entities 1 and 2 are live, but the iteration from `begin()` to `end()`
visits only `[1]`: it stops at index `number_of_entities = 2`. -/
theorem iterate_misses_live_entity :
    ∃ (w : World Nat) (ids : List Nat),
      World.run true 2 (World.new 2, [])
        [Op.new_entity, Op.new_entity, Op.new_entity, Op.delete_entity 0] = some (w, ids) ∧
      ids = [0, 1, 2] ∧ World.live 2 w 1 = true ∧ World.live 2 w 2 = true ∧
      World.iterate 2 w = some [1] := by
  refine ⟨_, _, rfl, ?_, ?_, ?_, ?_⟩ <;> decide

/-- C4, evaluated where the code departs from it.  After `clear()` on a fresh world of two
kinds `capacity()` is still 8 while the status table and the columns are empty, so id 3 is
below `capacity()` and `add<C>(3, 42)` writes outside the column of `C`. -/
theorem add_after_clear_leaves_table :
    3 < (World.clear (World.new 2 : World Nat)).capacity ∧
      (World.clear (World.new 2 : World Nat)).tables = [[], []] ∧
      World.add true 2 (World.clear (World.new 2 : World Nat)) 0 3 42 = none := by
  refine ⟨?_, ?_, ?_⟩ <;> decide

/-- The round trip of C4 where `clear()` has not been called.  In a world whose tables have
length `capacity()`, for an id below `capacity()`, a declared kind `c` and a value `v`:
`add<C>(id, v)` runs inside the tables, after it `has<C>(id)` is true and `get<C>(id)` is
non-empty and holds `v`. -/
theorem add_then_has_get {α : Type} (int128 : Bool) (K : Nat) (w : World α) (c idx : Nat)
    (v : α) (hw : World.WF K w) (hc : c < K) (hidx : idx < w.capacity) :
    ∃ w', World.add int128 K w c idx v = some w' ∧
      World.has K w' [c] idx = some true ∧ World.get K w' [c] idx = some (some [v]) := by
  obtain ⟨w', hadd⟩ := add_total int128 hw hc hidx v
  exact ⟨w', hadd, has_get_add_self hc hadd⟩

/-- The round trip of C4 on a fresh world of two kinds: kind 0, id 3, value 42. -/
theorem add_then_has_get_witness :
    World.WF 2 (World.new 2 : World Nat) ∧ 0 < 2 ∧ 3 < (World.new 2 : World Nat).capacity ∧
      ∃ w', World.add true 2 (World.new 2 : World Nat) 0 3 42 = some w' ∧
        World.has 2 w' [0] 3 = some true ∧ World.get 2 w' [0] 3 = some (some [42]) :=
  ⟨(Inv_new 2).1, by decide, by decide,
    add_then_has_get true 2 (World.new 2) 0 3 42 (Inv_new 2).1 (by decide) (by decide)⟩

/-- C5, evaluated where the code departs from it.  After `clear()` on a fresh world of two
kinds id 5 is below `capacity()`, the tables are empty, and neither `add<C>(5, 7)` nor
`remove<C>(5)` stays inside them, so the sequence `add`, `remove`, `add` has no result. -/
theorem add_remove_after_clear_leave_table :
    5 < (World.clear (World.new 2 : World Nat)).capacity ∧
      World.add true 2 (World.clear (World.new 2 : World Nat)) 1 5 7 = none ∧
      World.remove true 2 (World.clear (World.new 2 : World Nat)) 1 5 = none := by
  refine ⟨?_, ?_, ?_⟩ <;> decide

/-- The round trip of C5 where `clear()` has not been called.  In a world of at most 63
kinds whose tables have length `capacity()`, for an id below `capacity()`, a declared kind
`c` and values `v`, `v2`: after `add<C>(id, v)` then `remove<C>(id)`, `has<C>(id)` is false
and `get<C>(id)` is empty; after a further `add<C>(id, v2)`, `get<C>(id)` holds `v2`. -/
theorem add_remove_add {α : Type} (int128 : Bool) (K : Nat) (w : World α) (c idx : Nat)
    (v v2 : α) (hK : K < 64) (hw : World.WF K w) (hc : c < K) (hidx : idx < w.capacity) :
    ∃ w1 w2 w3, World.add int128 K w c idx v = some w1 ∧
      World.remove int128 K w1 c idx = some w2 ∧
      World.has K w2 [c] idx = some false ∧ World.get K w2 [c] idx = some none ∧
      World.add int128 K w2 c idx v2 = some w3 ∧
      World.get K w3 [c] idx = some (some [v2]) := by
  obtain ⟨w1, hadd⟩ := add_total int128 hw hc hidx v
  obtain ⟨hw1, hcap1, _⟩ := WF_add hw hadd
  have hidx1 : idx < w1.status.length := by
    rw [hw1.1, hcap1]; exact hidx
  have hrem := remove_eq_of_lt int128 K c hidx1
  obtain ⟨hw2, hcap2, _⟩ := WF_remove hw1 hrem
  obtain ⟨w3, hadd2⟩ := add_total int128 hw2 hc
    (show idx < _ by rw [hcap2, hcap1]; exact hidx) v2
  obtain ⟨h1, h2⟩ := has_get_remove_self hK hc hrem
  exact ⟨w1, _, w3, hadd, hrem, h1, h2, hadd2, (has_get_add_self hc hadd2).2⟩

/-- The round trip of C5 on a fresh world of two kinds: kind 1, id 5, values 7 and 9. -/
theorem add_remove_add_witness :
    2 < 64 ∧ World.WF 2 (World.new 2 : World Nat) ∧ 1 < 2 ∧
      5 < (World.new 2 : World Nat).capacity ∧
      ∃ w1 w2 w3, World.add true 2 (World.new 2 : World Nat) 1 5 7 = some w1 ∧
        World.remove true 2 w1 1 5 = some w2 ∧
        World.has 2 w2 [1] 5 = some false ∧ World.get 2 w2 [1] 5 = some none ∧
        World.add true 2 w2 1 5 9 = some w3 ∧
        World.get 2 w3 [1] 5 = some (some [9]) :=
  ⟨by decide, (Inv_new 2).1, by decide, by decide,
    add_remove_add true 2 (World.new 2) 1 5 7 9 (by decide) (Inv_new 2).1 (by decide)
      (by decide)⟩

/-- C6, evaluated where the code departs from it.  After `clear()` on a fresh world of two
kinds id 3 is below `capacity()` and the status table is empty; `has<C>(3)` and `get<C>(3)`
read `status[3]` outside the table, so `get` does not give the empty result there. -/
theorem get_has_after_clear_leave_table :
    3 < (World.clear (World.new 2 : World Nat)).capacity ∧
      (World.clear (World.new 2 : World Nat)).status = [] ∧
      World.has 2 (World.clear (World.new 2 : World Nat)) [0] 3 = none ∧
      World.get 2 (World.clear (World.new 2 : World Nat)) [0] 3 = none ∧
      World.get 2 (World.clear (World.new 2 : World Nat)) [0] 3 ≠ some none := by
  refine ⟨?_, ?_, ?_, ?_, ?_⟩ <;> decide

/-- The lookup of C6 where `clear()` has not been called.  In a world whose tables have
length `capacity()`, for an id below `capacity()` and declared kinds `Cs`: `get<Cs...>(id)`
runs inside the tables; its result is non-empty exactly
when `has<Cs...>(id)` is true, which is exactly when every requested kind's bit is active for
the id; a non-empty result has one element per requested kind, the `i`-th being the value at
index `id` of the column of the `i`-th requested kind. -/
theorem get_nonempty_iff_has {α : Type} (K : Nat) (w : World α) (Cs : List Nat) (idx : Nat)
    (hw : World.WF K w) (hCs : ∀ c ∈ Cs, c < K) (hidx : idx < w.capacity) :
    ∃ r : Option (List α), World.get K w Cs idx = some r ∧
      World.has K w Cs idx = some r.isSome ∧
      (r.isSome = true ↔ ∀ c ∈ Cs, World.has K w [c] idx = some true) ∧
      ∀ vs, r = some vs → vs.length = Cs.length ∧
        ∀ i c : Nat, Cs[i]? = some c →
          ∃ col : List α, w.tables[c]? = some col ∧ vs[i]? = col[idx]? := by
  have hi : idx < w.status.length := by rw [hw.1]; exact hidx
  obtain ⟨vs, hvs, hlen, hall⟩ := slots_of_WF hw hidx Cs hCs
  have hone : ∀ c, World.has K w [c] idx =
      some (ComponentStatus.isActive (K + 1) (c + 1) w.status[idx]) := by
    intro c
    simp only [World.has, List.getElem?_eq_getElem hi, allActive_singleton]
  have hiff : World.allActive K Cs w.status[idx] = true ↔
      ∀ c ∈ Cs, World.has K w [c] idx = some true := by
    unfold World.allActive
    rw [List.all_eq_true]
    constructor
    · intro h c hc; rw [hone, h c hc]
    · intro h c hc
      have := h c hc
      rw [hone] at this
      exact Option.some.inj this
  by_cases hact : World.allActive K Cs w.status[idx] = true
  · refine ⟨some vs, ?_, ?_, ?_, ?_⟩
    · simp only [World.get, List.getElem?_eq_getElem hi, hact, if_true, hvs, Option.map_some']
    · simp only [World.has, List.getElem?_eq_getElem hi, hact, Option.isSome_some]
    · simp only [Option.isSome_some, true_iff]
      exact hiff.mp hact
    · intro vs' hvs'
      obtain rfl := Option.some.inj hvs'
      exact ⟨hlen, hall⟩
  · have hact' : World.allActive K Cs w.status[idx] = false := by simpa using hact
    refine ⟨none, ?_, ?_, ?_, ?_⟩
    · simp only [World.get, List.getElem?_eq_getElem hi, hact', Bool.false_eq_true, if_false]
    · simp only [World.has, List.getElem?_eq_getElem hi, hact', Option.isSome_none]
    · simp only [Option.isSome_none, Bool.false_eq_true, false_iff]
      exact fun h => hact (hiff.mpr h)
    · intro vs' hvs'
      exact absurd hvs' (by simp)

/-- The equivalence of C6 on a world of two kinds and two slots whose entity 0 holds both
kinds: `get` of both kinds returns the two column values. -/
theorem get_nonempty_iff_has_witness :
    World.WF 2 (⟨[7, 4], [[11, 0], [22, 0]], 2, 2⟩ : World Nat) ∧
      (∀ c ∈ [0, 1], c < 2) ∧ 0 < (⟨[7, 4], [[11, 0], [22, 0]], 2, 2⟩ : World Nat).capacity ∧
      World.get 2 (⟨[7, 4], [[11, 0], [22, 0]], 2, 2⟩ : World Nat) [0, 1] 0 =
        some (some [11, 22]) ∧
      ∃ r : Option (List Nat),
        World.get 2 (⟨[7, 4], [[11, 0], [22, 0]], 2, 2⟩ : World Nat) [0, 1] 0 = some r ∧
        World.has 2 (⟨[7, 4], [[11, 0], [22, 0]], 2, 2⟩ : World Nat) [0, 1] 0 =
          some r.isSome ∧
        (r.isSome = true ↔ ∀ c ∈ [0, 1],
          World.has 2 (⟨[7, 4], [[11, 0], [22, 0]], 2, 2⟩ : World Nat) [c] 0 = some true) ∧
        ∀ vs, r = some vs → vs.length = [0, 1].length ∧
          ∀ i c : Nat, [0, 1][i]? = some c →
            ∃ col : List Nat,
              (⟨[7, 4], [[11, 0], [22, 0]], 2, 2⟩ : World Nat).tables[c]? = some col ∧
              vs[i]? = col[0]? :=
  ⟨by unfold World.WF; decide, by decide, by decide, by decide,
    get_nonempty_iff_has 2 ⟨[7, 4], [[11, 0], [22, 0]], 2, 2⟩ [0, 1] 0
      (by unfold World.WF; decide) (by decide) (by decide)⟩

/-- C7.  In a world of at most 63 kinds reachable from construction by `new_entity`,
`delete_entity` of a live id, `add` and `remove`, `new_entity()` returns an id and
`has<C>(id)` is false right after the call for every declared kind `c`. -/
theorem new_entity_has_no_component {α : Type} [Inhabited α] (int128 : Bool) (K : Nat)
    (w : World α) (hK : K < 64) (hr : World.Reachable int128 K w) :
    ∃ w' id, World.new_entity int128 K w = some (w', id) ∧
      ∀ c, c < K → World.has K w' [c] id = some false := by
  obtain ⟨w', id, s, hnew, hst⟩ := new_entity_status int128 (Reachable_Inv hr)
  refine ⟨w', id, hnew, ?_⟩
  intro c hc
  simp only [World.has, hst, allActive_singleton, isActive_claimed_kind hK hc]

/-- The property of C7 on a reclaimed slot: entity 0 is created, given kind 0 and deleted, its
component bit stays set, and the next `new_entity()` returns a slot without components. -/
theorem new_entity_has_no_component_witness :
    ∃ w : World Nat, 2 < 64 ∧ World.Reachable true 2 w ∧
      World.live 2 w 0 = false ∧ World.has 2 w [0] 0 = some true ∧
      ∃ w' id, World.new_entity true 2 w = some (w', id) ∧
        ∀ c, c < 2 → World.has 2 w' [c] id = some false :=
  ⟨_, by decide, ⟨[Op.new_entity, Op.add 0 0 5, Op.delete_entity 0], _, rfl⟩, by decide,
    by decide,
    new_entity_has_no_component true 2 _ (by decide)
      ⟨[Op.new_entity, Op.add 0 0 5, Op.delete_entity 0], _, rfl⟩⟩

theorem delete_entity_total {α : Type} (int128 : Bool) {K : Nat} {w : World α} {idx : Nat}
    (hlive : World.live K w idx = true) : ∃ w', World.delete_entity int128 K w idx = some w' := by
  unfold World.live at hlive
  unfold World.delete_entity
  cases hs : w.status[idx]? with
  | none => rw [hs] at hlive; exact absurd hlive (by simp)
  | some s => exact ⟨_, rfl⟩

/-- C8.  In a world of at most 63 kinds reachable from construction by `new_entity`,
`delete_entity` of a live id, `add` and `remove`, for a live id all of whose lower slots are
live: `delete_entity(id)` leaves the id the lowest slot whose "exists" bit is clear, and the
`new_entity()` right after it returns that id. -/
theorem delete_then_new_entity_reuses {α : Type} [Inhabited α] (int128 : Bool) (K : Nat)
    (w : World α) (id : Nat) (hK : K < 64) (hr : World.Reachable int128 K w)
    (hlive : World.live K w id = true) (hlow : ∀ j, j < id → World.live K w j = true) :
    ∃ w1 w2, World.delete_entity int128 K w id = some w1 ∧
      World.live K w1 id = false ∧ (∀ j, j < id → World.live K w1 j = true) ∧
      World.new_entity int128 K w1 = some (w2, id) := by
  have hc := Reachable_Counted hK hr
  obtain ⟨w1, hdel⟩ := delete_entity_total int128 hlive
  obtain ⟨hc1, hn1, hcap1, hoff, hframe⟩ := Counted_delete_entity hK hc hlive hdel
  have hlow1 : ∀ j, j < id → World.live K w1 j = true := by
    intro j hj
    rw [hframe j (by omega)]
    exact hlow j hj
  obtain ⟨w2, id', hnew, _, hoff', _, _, hmin⟩ := new_entity_Counted int128 hK hc1
  have hne : w1.number_of_entities ≠ w1.tables_capacity := by
    have h1 := live_count_le K w
    have h2 := hc.2
    have h3 := hc.1.1.1
    omega
  have hid : id' = id := by
    rcases Nat.lt_trichotomy id' id with h | h | h
    · have := hlow1 id' h
      rw [hoff'] at this
      exact absurd this (by simp)
    · exact h
    · have := hmin hne id h
      rw [hoff] at this
      exact absurd this (by simp)
  subst hid
  exact ⟨w1, w2, hdel, hoff, hlow1, hnew⟩

/-- The reuse of C8 after three creations: deleting entity 1 and creating again returns 1. -/
theorem delete_then_new_entity_reuses_witness :
    ∃ w : World Nat, 2 < 64 ∧ World.Reachable true 2 w ∧ World.live 2 w 1 = true ∧
      (∀ j, j < 1 → World.live 2 w j = true) ∧
      ∃ w1 w2, World.delete_entity true 2 w 1 = some w1 ∧
        World.live 2 w1 1 = false ∧ (∀ j, j < 1 → World.live 2 w1 j = true) ∧
        World.new_entity true 2 w1 = some (w2, 1) :=
  ⟨_, by decide, ⟨[Op.new_entity, Op.new_entity, Op.new_entity], _, rfl⟩, by decide, by decide,
    delete_then_new_entity_reuses true 2 _ 1 (by decide)
      ⟨[Op.new_entity, Op.new_entity, Op.new_entity], _, rfl⟩ (by decide) (by decide)⟩

/-- C9.  A freshly constructed world has `capacity() == 8` and `size() == 0`; for every `n`,
`n` consecutive `new_entity()` calls on it all return, and after them `size() == n` and
`capacity()` is the smallest value `8 * 2 ^ k` that is at least `n`: 16 for `n = 9` and 32 for
`n = 17`. -/
theorem capacity_after_new_entities {α : Type} [Inhabited α] (int128 : Bool) (K : Nat) :
    (World.new K : World α).capacity = 8 ∧ (World.new K : World α).size = 0 ∧
    ∀ n : Nat, ∃ (w : World α) (ids : List Nat),
      World.run int128 K (World.new K, []) (List.replicate n Op.new_entity) = some (w, ids) ∧
      w.size = n ∧
      (∃ k, w.capacity = 8 * 2 ^ k ∧ n ≤ 8 * 2 ^ k ∧ ∀ j, n ≤ 8 * 2 ^ j → k ≤ j) ∧
      (n = 9 → w.capacity = 16) ∧ (n = 17 → w.capacity = 32) := by
  refine ⟨rfl, rfl, ?_⟩
  intro n
  obtain ⟨w, ids, hrun, _, hn, k, hcap, hle, hk⟩ := run_new_entities (α := α) int128 K n
  have hmin : ∀ j, n ≤ 8 * 2 ^ j → k ≤ j := by
    intro j hj
    rcases hk with h0 | h1
    · omega
    · have hlt : 2 ^ (k - 1) < 2 ^ j := by omega
      have := (Nat.pow_lt_pow_iff_right (by decide : 1 < 2)).mp hlt
      omega
  refine ⟨w, ids, hrun, hn, ⟨k, hcap, hle, hmin⟩, ?_, ?_⟩
  · intro h9
    have h1 : k ≤ 1 := hmin 1 (by omega)
    have h0 : k ≠ 0 := by
      intro h; rw [h] at hle; omega
    have : k = 1 := by omega
    show w.tables_capacity = 16
    rw [hcap, this]
    rfl
  · intro h17
    have h2 : k ≤ 2 := hmin 2 (by omega)
    have h1 : ¬ k ≤ 1 := by
      intro h
      have : 2 ^ k ≤ 2 ^ 1 := Nat.pow_le_pow_right (by decide) h
      omega
    have : k = 2 := by omega
    show w.tables_capacity = 32
    rw [hcap, this]
    rfl

/-- C10.  After any sequence of `new_entity`, `delete_entity` of a live id, `add` and `remove`
calls from construction, every id returned by `new_entity` so far is below `capacity()`, which
is the length of the status table and of every column; and a further `new_entity()` returns
an id below the `capacity()` it leaves, which is the former capacity or exactly twice it. -/
theorem issued_ids_below_capacity {α : Type} [Inhabited α] (int128 : Bool) (K : Nat)
    (ops : List (Op α)) (w : World α) (ids : List Nat)
    (h : World.run int128 K (World.new K, []) ops = some (w, ids)) :
    (∀ id ∈ ids, id < w.capacity) ∧
      w.status.length = w.capacity ∧ (∀ col ∈ w.tables, col.length = w.capacity) ∧
      ∃ w' id, World.new_entity int128 K w = some (w', id) ∧ id < w'.capacity ∧
        (w'.capacity = w.capacity ∨ w'.capacity = 2 * w.capacity) := by
  obtain ⟨hinv, hids⟩ := Inv_run ops (World.new K, []) (w, ids) (Inv_new K) (by simp) h
  obtain ⟨w', id, hnew, _, hid, _, hcap⟩ := new_entity_Inv int128 hinv
  refine ⟨hids, hinv.1.1, hinv.1.2.2, w', id, hnew, hid, ?_⟩
  show w'.tables_capacity = w.tables_capacity ∨ w'.tables_capacity = 2 * w.tables_capacity
  rw [hcap]
  split_ifs
  · exact Or.inr (Nat.mul_comm _ _)
  · exact Or.inl rfl

/-- The bounds of C10 after eight creations, where the next `new_entity()` doubles the
capacity. -/
theorem issued_ids_below_capacity_witness :
    ∃ (w : World Nat) (ids : List Nat),
      World.run true 2 (World.new 2, []) (List.replicate 8 Op.new_entity) = some (w, ids) ∧
      w.capacity = 8 ∧ (∀ id ∈ ids, id < w.capacity) ∧
      w.status.length = w.capacity ∧ (∀ col ∈ w.tables, col.length = w.capacity) ∧
      ∃ w' id, World.new_entity true 2 w = some (w', id) ∧ id < w'.capacity ∧
        (w'.capacity = w.capacity ∨ w'.capacity = 2 * w.capacity) :=
  ⟨_, _, rfl, by decide,
    issued_ids_below_capacity true 2 (List.replicate 8 Op.new_entity) _ _ rfl⟩

/-! ## Masks, indices and storage of a status entry -/

theorem shift_eq : ∀ (N p : Nat), p < N → BitPosition.shift p N = some (N - 1 - p)
  | 0, _, h => absurd h (Nat.not_lt_zero _)
  | N + 1, 0, _ => by simp [BitPosition.shift]
  | N + 1, p + 1, h => by
    have hp : p < N := Nat.lt_of_succ_lt_succ h
    have e : N + 1 - 1 - (p + 1) = N - 1 - p := by omega
    rw [BitPosition.shift, shift_eq N p hp, e]

/-- Up to 64 structures a native storage is selected, and its width is `capacity()`. -/
theorem select_storage_type_of_le (int128 : Bool) {N : Nat} (hN : N ≤ 64) :
    ∃ S, select_storage_type int128 N = some S ∧
      sizeInBits S = ComponentStatus.capacity int128 N := by
  have h : ∃ S, select_storage_type int128 N = some S := by
    unfold select_storage_type
    split_ifs
    · exact ⟨_, rfl⟩
    · exact ⟨_, rfl⟩
    · exact ⟨_, rfl⟩
    · exact ⟨_, rfl⟩
  obtain ⟨S, hS⟩ := h
  refine ⟨S, hS, ?_⟩
  unfold ComponentStatus.capacity
  rw [hS]

theorem position_of_lt (int128 : Bool) {N p : Nat}
    (hsel : (select_storage_type int128 N).isSome = true) (hp : p < N)
    (hr : N - 1 - p < 64) :
    ComponentStatus.position int128 N p = some (2 ^ (N - 1 - p)) := by
  obtain ⟨S, hS⟩ := Option.isSome_iff_exists.mp hsel
  simp only [ComponentStatus.position, hS, shift_eq N p hp, hr, if_true,
    BitPosition_eq_two_pow N p hp]

theorem position_of_ge (int128 : Bool) {N p : Nat} (hp : p < N) (hr : 64 ≤ N - 1 - p) :
    ComponentStatus.position int128 N p = none := by
  unfold ComponentStatus.position
  cases select_storage_type int128 N with
  | none => rfl
  | some S =>
    simp only [shift_eq N p hp]
    rw [if_neg (by omega)]

theorem count_two_pow : ∀ (fuel r : Nat), r < fuel → builtin_ctz.count fuel (2 ^ r) = r
  | 0, _, h => absurd h (Nat.not_lt_zero _)
  | fuel + 1, 0, _ => by simp [builtin_ctz.count]
  | fuel + 1, r + 1, h => by
    have hr : r < fuel := Nat.lt_of_succ_lt_succ h
    have h0 : 2 ^ (r + 1) % 2 = 0 := by rw [pow_succ]; omega
    have h2 : 2 ^ (r + 1) / 2 = 2 ^ r := by rw [pow_succ]; omega
    rw [builtin_ctz.count, if_neg (by omega), h2, count_two_pow fuel r hr]

theorem builtin_ctz_two_pow {bits r : Nat} (h : r < bits) :
    builtin_ctz bits (2 ^ r) = some r := by
  have hlt : 2 ^ r < 2 ^ bits := Nat.pow_lt_pow_right (by decide) h
  have hpos : 0 < 2 ^ r := Nat.pos_pow_of_pos r (by decide)
  unfold builtin_ctz
  rw [Nat.mod_eq_of_lt hlt, if_neg (by omega), count_two_pow bits r h]

theorem and_BitPosition_of_active {N p : Nat} (hp : p < N) {s : Nat}
    (h : ComponentStatus.isActive N p s = true) :
    s &&& BitPosition p N = 2 ^ (N - 1 - p) := by
  rw [isActive_eq_testBit hp] at h
  rw [BitPosition_eq_two_pow N p hp, Nat.and_two_pow, h]
  simp

theorem capacity_le_of_le (int128 : Bool) {N : Nat} :
    (N ≤ 32 → ComponentStatus.capacity int128 N ≤ 32) ∧
      (N ≤ 64 → ComponentStatus.capacity int128 N ≤ 64) := by
  unfold ComponentStatus.capacity select_storage_type
  constructor <;> intro h <;> split_ifs <;> simp only [sizeInBits] <;> omega

/-- With at most 64 structures, the index of an active kind is its bit index. -/
theorem index_of_active (int128 : Bool) {N p : Nat} (hN : N ≤ 64) (hp : p < N) {s : Nat}
    (h : ComponentStatus.isActive N p s = true) :
    ComponentStatus.index int128 N p s = some (N - 1 - p) := by
  have hcap := capacity_ge int128 N
  have h64 := (capacity_le_of_le int128 (N := N)).2 hN
  obtain ⟨S, hS, hbits⟩ := select_storage_type_of_le int128 hN
  rw [← hbits] at hcap h64
  have hmask := and_BitPosition_of_active hp h
  have hpos := position_of_lt int128 (by rw [hS]; rfl) hp (by omega)
  rw [← BitPosition_eq_two_pow N p hp] at hpos
  unfold ComponentStatus.index
  simp only [hS]
  by_cases h32 : sizeInBits S ≤ 32
  · rw [if_pos h32, hpos]
    simp only [hmask]
    exact builtin_ctz_two_pow (by omega)
  · rw [if_neg h32, if_pos h64, hpos]
    simp only [hmask]
    exact builtin_ctz_two_pow (by omega)

theorem num_of_elements_eq (N : Nat) : CustomSizeType.num_of_elements N = (N + 63) / 64 := by
  unfold CustomSizeType.num_of_elements
  split_ifs <;> omega

/-- C15, as stated, fails.  In a list of 65 kinds, for which `__int128` storage is selected,
the first declared kind has 64 kinds after it, and its mask `1ULL << 64` is not a value of the
64-bit mask type, so `position<T>()` has no value there and is not `2 ^ 64`.  In a list of 129
kinds no storage is selected, and `position<T>()` has no value for any kind, the last
included. -/
theorem position_first_of_65_undefined :
    select_storage_type true 65 = some Storage.int128 ∧
      ComponentStatus.position true 65 0 = none ∧
      ComponentStatus.position true 65 0 ≠ some (2 ^ 64) ∧
      select_storage_type true 129 = none ∧
      ComponentStatus.position true 129 128 = none := by
  refine ⟨?_, ?_, ?_, ?_, ?_⟩ <;> decide

/-- C15, amended.  For every list of `N` declared kinds for which a storage is selected,
also one of more than 64 kinds, and every kind with fewer than 64 kinds declared after it,
`position<T>()` is the single-bit mask `2 ^ r`, `r` the number of kinds declared after it, and
it is non-zero; the first declared kind has the highest bit `N - 1` when that bit is below 64,
the last declared kind has bit 0, and every other kind of the list has a `position` different
from this one, whatever the status value. -/
theorem position_single_bit (int128 : Bool) (N p : Nat)
    (hsel : (select_storage_type int128 N).isSome = true) (hp : p < N)
    (hr : N - 1 - p < 64) :
    ComponentStatus.position int128 N p = some (2 ^ (N - 1 - p)) ∧ 2 ^ (N - 1 - p) ≠ 0 ∧
      (N - 1 < 64 → ComponentStatus.position int128 N 0 = some (2 ^ (N - 1))) ∧
      ComponentStatus.position int128 N (N - 1) = some (2 ^ 0) ∧
      ∀ q, q < N → q ≠ p →
        ComponentStatus.position int128 N q ≠ ComponentStatus.position int128 N p := by
  refine ⟨position_of_lt int128 hsel hp hr,
    Nat.pos_iff_ne_zero.mp (Nat.pos_pow_of_pos _ (by decide)),
    fun h => position_of_lt int128 hsel (by omega) (by omega), ?_, ?_⟩
  · have h := position_of_lt int128 (N := N) (p := N - 1) hsel (by omega) (by omega)
    have e : N - 1 - (N - 1) = 0 := by omega
    rw [e] at h
    exact h
  · intro q hq hne
    rw [position_of_lt int128 hsel hp hr]
    by_cases hq64 : N - 1 - q < 64
    · rw [position_of_lt int128 hsel hq hq64]
      intro h
      have := Nat.pow_right_injective (le_refl 2) (Option.some.inj h)
      omega
    · rw [position_of_ge int128 hq (by omega)]
      exact fun h => Option.noConfusion h

/-- The masks of C15 in a list of 65 kinds on `__int128` storage, at the kind with 63 kinds
declared after it: its mask is `2 ^ 63`, the last kind has mask 1, and the first kind, which
has no mask, differs. -/
theorem position_single_bit_witness :
    (select_storage_type true 65).isSome = true ∧ 1 < 65 ∧ 65 - 1 - 1 < 64 ∧
      ComponentStatus.position true 65 1 = some (2 ^ (65 - 1 - 1)) ∧ 2 ^ (65 - 1 - 1) ≠ 0 ∧
      (65 - 1 < 64 → ComponentStatus.position true 65 0 = some (2 ^ (65 - 1))) ∧
      ComponentStatus.position true 65 (65 - 1) = some (2 ^ 0) ∧
      ∀ q, q < 65 → q ≠ 1 →
        ComponentStatus.position true 65 q ≠ ComponentStatus.position true 65 1 :=
  ⟨by decide, by decide, by decide,
    position_single_bit true 65 1 (by decide) (by decide) (by decide)⟩

/-- C16.  For every list of `N` declared kinds and every status value in which all `N` kinds
are active (each `isActive<T>()` instantiates and is true), the values `index<T>()` are
defined, each lies below `capacity()`, the bit width of the selected storage, and distinct
kinds have distinct indices. -/
theorem index_distinct_below_capacity (int128 : Bool) (N s : Nat)
    (hall : ∀ p, p < N →
      (ComponentStatus.position int128 N p).isSome = true ∧
        ComponentStatus.isActive N p s = true) :
    ∀ p q, p < N → q < N →
      ∃ i j, ComponentStatus.index int128 N p s = some i ∧
        ComponentStatus.index int128 N q s = some j ∧
        i < ComponentStatus.capacity int128 N ∧ (p ≠ q → i ≠ j) := by
  intro p q hp hq
  have hN : N ≤ 64 := by
    by_contra hlt
    have h0 := (hall 0 (by omega)).1
    rw [position_of_ge int128 (by omega) (by omega)] at h0
    exact absurd h0 (by simp)
  have hcap := capacity_ge int128 N
  exact ⟨N - 1 - p, N - 1 - q, index_of_active int128 hN hp (hall p hp).2,
    index_of_active int128 hN hq (hall q hq).2, by omega, by omega⟩

/-- The indices of C16 in a list of three kinds, all active in the status value 7. -/
theorem index_distinct_below_capacity_witness :
    (∀ p, p < 3 →
      (ComponentStatus.position true 3 p).isSome = true ∧
        ComponentStatus.isActive 3 p 7 = true) ∧
      ComponentStatus.index true 3 0 7 = some 2 ∧ ComponentStatus.index true 3 1 7 = some 1 ∧
      ComponentStatus.index true 3 2 7 = some 0 ∧ ComponentStatus.capacity true 3 = 8 ∧
      ∀ p q, p < 3 → q < 3 →
        ∃ i j, ComponentStatus.index true 3 p 7 = some i ∧
          ComponentStatus.index true 3 q 7 = some j ∧
          i < ComponentStatus.capacity true 3 ∧ (p ≠ q → i ≠ j) :=
  ⟨by decide, by decide, by decide, by decide, by decide,
    index_distinct_below_capacity true 3 7 (by decide)⟩

/-- C17, evaluated where the code departs from it.  With `__int128` available a list of 65
kinds selects `__int128` storage; the kind at position 63 has one kind declared after it, its
mask is 2, and after `activate<T>()` on a default status it is active; `index<T>()` takes the
branch for storage wider than 64 bits and returns 0, not the bit index 1. -/
theorem index_of_wide_storage_is_zero :
    select_storage_type true 65 = some Storage.int128 ∧
      ComponentStatus.position true 65 63 = some 2 ∧
      ComponentStatus.isActive 65 63
        (ComponentStatus.activate (ComponentStatus.capacity true 65) 65 63
          ComponentStatus.init) = true ∧
      ComponentStatus.index true 65 63
        (ComponentStatus.activate (ComponentStatus.capacity true 65) 65 63
          ComponentStatus.init) = some 0 := by
  refine ⟨?_, ?_, ?_, ?_⟩ <;> decide

/-- C19, as stated, fails: where the compiler provides `__int128`, 65 structures select
`__int128`, not the `CustomSizeType` of 65 bits. -/
theorem select_storage_type_65_is_int128 :
    select_storage_type true 65 = some Storage.int128 ∧
      select_storage_type true 65 ≠ some (Storage.custom 65) := by
  constructor <;> decide

/-- C19, amended.  For every `N`: when `N ≤ 64` the selected storage is the smallest of the
native widths 8, 16, 32, 64 that is at least `N`; when `64 < N ≤ 128` and the compiler provides
`__int128` it is `__int128`; and whenever a storage is selected, `capacity()` is its width and
is at least `size()`. -/
theorem select_storage_type_spec (int128 : Bool) (N : Nat) :
    (N ≤ 64 →
      ∃ S, select_storage_type int128 N = some S ∧
        S ∈ [Storage.uint8, Storage.uint16, Storage.uint32, Storage.uint64] ∧
        N ≤ sizeInBits S ∧ ∀ V ∈ [8, 16, 32, 64], N ≤ V → sizeInBits S ≤ V) ∧
    (64 < N → N ≤ 128 → int128 = true →
      select_storage_type int128 N = some Storage.int128) ∧
    (∀ S, select_storage_type int128 N = some S →
      ComponentStatus.capacity int128 N = sizeInBits S ∧
        ComponentStatus.size N ≤ ComponentStatus.capacity int128 N) := by
  refine ⟨?_, ?_, ?_⟩
  · intro hN
    unfold select_storage_type
    split_ifs with h1 h2 h3
    all_goals refine ⟨_, rfl, ?_⟩
    all_goals simp only [sizeInBits, List.mem_cons, List.mem_singleton, true_or, or_true,
      true_and, forall_eq_or_imp, forall_eq, List.not_mem_nil, or_false]
    all_goals omega
  · intro h1 h2 h3
    unfold select_storage_type
    rw [if_neg (by omega), if_neg (by omega), if_neg (by omega), if_neg (by omega),
      if_pos (by simp [h3, h2])]
  · intro S hS
    refine ⟨?_, capacity_ge int128 N⟩
    unfold ComponentStatus.capacity
    rw [hS]

/-- The selection of C19 for 9, 64, 65 and 128 structures. -/
theorem select_storage_type_spec_witness :
    select_storage_type true 9 = some Storage.uint16 ∧
      select_storage_type false 64 = some Storage.uint64 ∧
      select_storage_type true 65 = some Storage.int128 ∧
      (ComponentStatus.capacity true 128 = sizeInBits Storage.int128 ∧
        ComponentStatus.size 128 ≤ ComponentStatus.capacity true 128) :=
  ⟨by decide, by decide,
    (select_storage_type_spec true 65).2.1 (by decide) (by decide) rfl,
    (select_storage_type_spec true 128).2.2 Storage.int128 (by decide)⟩

/-! ## Frames of the mutating operations -/

theorem delete_entity_eq_of_lt {α : Type} (int128 : Bool) (K : Nat) {w : World α} {idx : Nat}
    (hidx : idx < w.status.length) :
    World.delete_entity int128 K w idx = some { w with
      number_of_entities :=
        if w.number_of_entities = 0 then 2 ^ 64 - 1 else w.number_of_entities - 1
      status := w.status.set idx
        (ComponentStatus.deactivate (World.status_bits int128 K) (K + 1) 0 w.status[idx]) } := by
  simp only [World.delete_entity, List.getElem?_eq_getElem hidx]

theorem has_singleton_of_getElem? {α : Type} {K : Nat} {w : World α} {idx s : Nat} (c : Nat)
    (h : w.status[idx]? = some s) :
    World.has K w [c] idx = some (ComponentStatus.isActive (K + 1) (c + 1) s) := by
  simp only [World.has, h, allActive_singleton]

/-- C11.  In a world of at most 63 kinds whose tables have length `capacity()`, with
`size() >= 1`, for every id below `capacity()`: `delete_entity(id)` runs inside the tables,
clears the "exists" bit of the id, decreases `size()` by exactly 1, and leaves every component
bit of the id, every column, the status of every other slot and `capacity()` as they were. -/
theorem delete_entity_frame {α : Type} (int128 : Bool) (K : Nat) (w : World α) (idx : Nat)
    (hK : K < 64) (hw : World.WF K w) (hsize : 1 ≤ w.size) (hidx : idx < w.capacity) :
    ∃ w', World.delete_entity int128 K w idx = some w' ∧
      World.live K w' idx = false ∧ w'.size + 1 = w.size ∧
      (∀ c, c < K → World.has K w' [c] idx = World.has K w [c] idx) ∧
      w'.tables = w.tables ∧ (∀ j, j ≠ idx → w'.status[j]? = w.status[j]?) ∧
      w'.capacity = w.capacity := by
  have hi : idx < w.status.length := by rw [hw.1]; exact hidx
  have hs := List.getElem?_eq_getElem hi
  have hs' : (w.status.set idx (ComponentStatus.deactivate (World.status_bits int128 K) (K + 1) 0
      w.status[idx]))[idx]? = some (ComponentStatus.deactivate (World.status_bits int128 K)
      (K + 1) 0 w.status[idx]) := List.getElem?_set_self hi
  refine ⟨_, delete_entity_eq_of_lt int128 K hi, ?_, ?_, ?_, rfl, ?_, rfl⟩
  · rw [live_of_getElem? (w := World.mk _ _ _ _) hs',
      isActive_deactivate (Nat.succ_pos K) (Nat.succ_pos K) (by omega)
        (status_bits_ge int128 K)]
    simp
  · have h1 : w.number_of_entities ≠ 0 := by
      have : 1 ≤ w.number_of_entities := hsize
      omega
    show (if w.number_of_entities = 0 then 2 ^ 64 - 1 else w.number_of_entities - 1) + 1 =
      w.number_of_entities
    rw [if_neg h1]
    omega
  · intro c hc
    rw [has_singleton_of_getElem? (w := World.mk _ _ _ _) c hs', has_singleton_of_getElem? c hs,
      isActive_deactivate (Nat.succ_pos K) (by omega) (by omega) (status_bits_ge int128 K)]
    simp
  · intro j hj
    exact List.getElem?_set_ne (Ne.symm hj)

/-- The frame of C11 on a world of two kinds and two slots whose entity 0 is live and holds
both kinds. -/
theorem delete_entity_frame_witness :
    2 < 64 ∧ World.WF 2 (⟨[7, 4], [[11, 0], [22, 0]], 2, 2⟩ : World Nat) ∧
      1 ≤ (⟨[7, 4], [[11, 0], [22, 0]], 2, 2⟩ : World Nat).size ∧
      0 < (⟨[7, 4], [[11, 0], [22, 0]], 2, 2⟩ : World Nat).capacity ∧
      World.delete_entity true 2 (⟨[7, 4], [[11, 0], [22, 0]], 2, 2⟩ : World Nat) 0 =
        some ⟨[3, 4], [[11, 0], [22, 0]], 2, 1⟩ ∧
      ∃ w', World.delete_entity true 2 (⟨[7, 4], [[11, 0], [22, 0]], 2, 2⟩ : World Nat) 0 =
          some w' ∧
        World.live 2 w' 0 = false ∧
        w'.size + 1 = (⟨[7, 4], [[11, 0], [22, 0]], 2, 2⟩ : World Nat).size ∧
        (∀ c, c < 2 → World.has 2 w' [c] 0 =
          World.has 2 (⟨[7, 4], [[11, 0], [22, 0]], 2, 2⟩ : World Nat) [c] 0) ∧
        w'.tables = (⟨[7, 4], [[11, 0], [22, 0]], 2, 2⟩ : World Nat).tables ∧
        (∀ j, j ≠ 0 → w'.status[j]? =
          (⟨[7, 4], [[11, 0], [22, 0]], 2, 2⟩ : World Nat).status[j]?) ∧
        w'.capacity = (⟨[7, 4], [[11, 0], [22, 0]], 2, 2⟩ : World Nat).capacity :=
  ⟨by decide, by unfold World.WF; decide, by decide, by decide, by decide,
    delete_entity_frame true 2 ⟨[7, 4], [[11, 0], [22, 0]], 2, 2⟩ 0 (by decide)
      (by unfold World.WF; decide) (by decide) (by decide)⟩

/-- C12, evaluated where the code departs from it.  After `clear()` on a fresh world of two
kinds id 0 is below `capacity()` and the status table is empty; `remove<C>(0)` subscripts
`status[0]` outside it. -/
theorem remove_after_clear_leaves_table :
    0 < (World.clear (World.new 2 : World Nat)).capacity ∧
      (World.clear (World.new 2 : World Nat)).status.length = 0 ∧
      World.remove true 2 (World.clear (World.new 2 : World Nat)) 0 0 = none := by
  refine ⟨?_, ?_, ?_⟩ <;> decide

/-- The frame of C12 where `clear()` has not been called.  In a world of at most 63 kinds
whose tables have length `capacity()`, for every id below `capacity()` and declared kind `c`:
`remove<C>(id)` runs inside the tables and clears the
bit of `c` for the id; every column (the value of `c` at the id included), every other
kind's bit of the id, its "exists" bit, the status of every other slot, `size()` and
`capacity()` are as before. -/
theorem remove_frame {α : Type} (int128 : Bool) (K : Nat) (w : World α) (c idx : Nat)
    (hK : K < 64) (hw : World.WF K w) (hc : c < K) (hidx : idx < w.capacity) :
    ∃ w', World.remove int128 K w c idx = some w' ∧
      World.has K w' [c] idx = some false ∧ w'.tables = w.tables ∧
      (∀ d, d < K → d ≠ c → World.has K w' [d] idx = World.has K w [d] idx) ∧
      World.live K w' idx = World.live K w idx ∧
      (∀ j, j ≠ idx → w'.status[j]? = w.status[j]?) ∧
      w'.size = w.size ∧ w'.capacity = w.capacity := by
  have hi : idx < w.status.length := by rw [hw.1]; exact hidx
  have hs := List.getElem?_eq_getElem hi
  have hs' : (w.status.set idx (ComponentStatus.deactivate (World.status_bits int128 K) (K + 1)
      (c + 1) w.status[idx]))[idx]? = some (ComponentStatus.deactivate
      (World.status_bits int128 K) (K + 1) (c + 1) w.status[idx]) := List.getElem?_set_self hi
  have hrem := remove_eq_of_lt int128 K c hi
  refine ⟨_, hrem, (has_get_remove_self hK hc hrem).1, rfl, ?_, ?_, ?_, rfl, rfl⟩
  · intro d hd hne
    rw [has_singleton_of_getElem? (w := World.mk _ _ _ _) d hs', has_singleton_of_getElem? d hs,
      isActive_deactivate (by omega) (by omega) (by omega) (status_bits_ge int128 K)]
    have : ¬ c + 1 = d + 1 := by omega
    simp [this]
  · rw [live_of_getElem? (w := World.mk _ _ _ _) hs', live_of_getElem? hs,
      isActive_deactivate (by omega) (Nat.succ_pos K) (by omega) (status_bits_ge int128 K)]
    simp
  · intro j hj
    exact List.getElem?_set_ne (Ne.symm hj)

/-- The frame of C12 on a world of two kinds and two slots whose entity 0 holds both kinds:
removing kind 1 leaves the status 6 and the stored value 22. -/
theorem remove_frame_witness :
    2 < 64 ∧ World.WF 2 (⟨[7, 4], [[11, 0], [22, 0]], 2, 2⟩ : World Nat) ∧ 1 < 2 ∧
      0 < (⟨[7, 4], [[11, 0], [22, 0]], 2, 2⟩ : World Nat).capacity ∧
      World.remove true 2 (⟨[7, 4], [[11, 0], [22, 0]], 2, 2⟩ : World Nat) 1 0 =
        some ⟨[6, 4], [[11, 0], [22, 0]], 2, 2⟩ ∧
      ∃ w', World.remove true 2 (⟨[7, 4], [[11, 0], [22, 0]], 2, 2⟩ : World Nat) 1 0 =
          some w' ∧
        World.has 2 w' [1] 0 = some false ∧
        w'.tables = (⟨[7, 4], [[11, 0], [22, 0]], 2, 2⟩ : World Nat).tables ∧
        (∀ d, d < 2 → d ≠ 1 → World.has 2 w' [d] 0 =
          World.has 2 (⟨[7, 4], [[11, 0], [22, 0]], 2, 2⟩ : World Nat) [d] 0) ∧
        World.live 2 w' 0 = World.live 2 (⟨[7, 4], [[11, 0], [22, 0]], 2, 2⟩ : World Nat) 0 ∧
        (∀ j, j ≠ 0 → w'.status[j]? =
          (⟨[7, 4], [[11, 0], [22, 0]], 2, 2⟩ : World Nat).status[j]?) ∧
        w'.size = (⟨[7, 4], [[11, 0], [22, 0]], 2, 2⟩ : World Nat).size ∧
        w'.capacity = (⟨[7, 4], [[11, 0], [22, 0]], 2, 2⟩ : World Nat).capacity :=
  ⟨by decide, by unfold World.WF; decide, by decide, by decide, by decide,
    remove_frame true 2 ⟨[7, 4], [[11, 0], [22, 0]], 2, 2⟩ 1 0 (by decide)
      (by unfold World.WF; decide) (by decide) (by decide)⟩

/-- C13, evaluated where the code departs from it.  After `clear()` on a fresh world of two
kinds id 7 is below `capacity()`, its "exists" bit is not set, and `add<C>(7, 5)` does not
succeed: it writes outside the empty column of `C`. -/
theorem add_after_clear_does_not_succeed :
    7 < (World.clear (World.new 2 : World Nat)).capacity ∧
      World.live 2 (World.clear (World.new 2 : World Nat)) 7 = false ∧
      (∀ col ∈ (World.clear (World.new 2 : World Nat)).tables, col.length = 0) ∧
      World.add true 2 (World.clear (World.new 2 : World Nat)) 1 7 5 = none := by
  refine ⟨?_, ?_, ?_, ?_⟩ <;> decide

/-- The frame of C13 where `clear()` has not been called.  In a world whose tables have
length `capacity()`, for every id below `capacity()`, declared kind `c` and value `v`,
whatever the "exists" bit of the id: `add<C>(id, v)` runs
inside the tables, stores `v` in the slot of the id in the column of `c` and sets the bit of
`c` for the id; the "exists" bit of the id, every other kind's bit of the id, every other
column, every other slot of the column of `c`, the status of every other slot, `size()` and
`capacity()` are as before. -/
theorem add_frame {α : Type} (int128 : Bool) (K : Nat) (w : World α) (c idx : Nat) (v : α)
    (hw : World.WF K w) (hc : c < K) (hidx : idx < w.capacity) :
    ∃ w', World.add int128 K w c idx v = some w' ∧
      World.has K w' [c] idx = some true ∧
      ((w'.tables[c]?).bind fun col => col[idx]?) = some v ∧
      World.live K w' idx = World.live K w idx ∧
      (∀ d, d < K → d ≠ c → World.has K w' [d] idx = World.has K w [d] idx) ∧
      (∀ d, d ≠ c → w'.tables[d]? = w.tables[d]?) ∧
      (∀ j, j ≠ idx → ((w'.tables[c]?).bind fun col => col[j]?) =
        ((w.tables[c]?).bind fun col => col[j]?)) ∧
      (∀ j, j ≠ idx → w'.status[j]? = w.status[j]?) ∧
      w'.size = w.size ∧ w'.capacity = w.capacity := by
  obtain ⟨col, s, hcol, hlt, hs, hadd⟩ := add_eq_of_WF int128 hw hc hidx v
  obtain ⟨hi, _⟩ := List.getElem?_eq_some.mp hs
  obtain ⟨hc', _⟩ := List.getElem?_eq_some.mp hcol
  have hs' : (w.status.set idx (ComponentStatus.activate (World.status_bits int128 K) (K + 1)
      (c + 1) s))[idx]? = some (ComponentStatus.activate (World.status_bits int128 K) (K + 1)
      (c + 1) s) := List.getElem?_set_self hi
  have hcol' : (w.tables.set c (col.set idx v))[c]? = some (col.set idx v) :=
    List.getElem?_set_self hc'
  refine ⟨_, hadd, (has_get_add_self hc hadd).1, ?_, ?_, ?_, ?_, ?_, ?_, rfl, rfl⟩
  · show ((w.tables.set c (col.set idx v))[c]?.bind fun col => col[idx]?) = some v
    rw [hcol', Option.some_bind, List.getElem?_set_self hlt]
  · rw [live_of_getElem? (w := World.mk _ _ _ _) hs', live_of_getElem? hs,
      isActive_activate (by omega) (Nat.succ_pos K) (status_bits_ge int128 K)]
    simp
  · intro d hd hne
    rw [has_singleton_of_getElem? (w := World.mk _ _ _ _) d hs', has_singleton_of_getElem? d hs,
      isActive_activate (by omega) (by omega) (status_bits_ge int128 K)]
    have : ¬ c + 1 = d + 1 := by omega
    simp [this]
  · intro d hd
    exact List.getElem?_set_ne (Ne.symm hd)
  · intro j hj
    show ((w.tables.set c (col.set idx v))[c]?.bind fun col => col[j]?) = _
    rw [hcol', hcol, Option.some_bind, Option.some_bind, List.getElem?_set_ne (Ne.symm hj)]
  · intro j hj
    exact List.getElem?_set_ne (Ne.symm hj)

/-- The frame of C13 on a world of two kinds and two slots whose slot 1 is not live: adding
kind 0 there stores the value and sets only that bit. -/
theorem add_frame_witness :
    World.WF 2 (⟨[7, 0], [[11, 0], [22, 0]], 2, 1⟩ : World Nat) ∧ 0 < 2 ∧
      1 < (⟨[7, 0], [[11, 0], [22, 0]], 2, 1⟩ : World Nat).capacity ∧
      World.live 2 (⟨[7, 0], [[11, 0], [22, 0]], 2, 1⟩ : World Nat) 1 = false ∧
      World.add true 2 (⟨[7, 0], [[11, 0], [22, 0]], 2, 1⟩ : World Nat) 0 1 33 =
        some ⟨[7, 2], [[11, 33], [22, 0]], 2, 1⟩ ∧
      ∃ w', World.add true 2 (⟨[7, 0], [[11, 0], [22, 0]], 2, 1⟩ : World Nat) 0 1 33 =
          some w' ∧
        World.has 2 w' [0] 1 = some true ∧
        ((w'.tables[0]?).bind fun col => col[1]?) = some 33 ∧
        World.live 2 w' 1 = World.live 2 (⟨[7, 0], [[11, 0], [22, 0]], 2, 1⟩ : World Nat) 1 ∧
        (∀ d, d < 2 → d ≠ 0 → World.has 2 w' [d] 1 =
          World.has 2 (⟨[7, 0], [[11, 0], [22, 0]], 2, 1⟩ : World Nat) [d] 1) ∧
        (∀ d, d ≠ 0 → w'.tables[d]? =
          (⟨[7, 0], [[11, 0], [22, 0]], 2, 1⟩ : World Nat).tables[d]?) ∧
        (∀ j, j ≠ 1 → ((w'.tables[0]?).bind fun col => col[j]?) =
          (((⟨[7, 0], [[11, 0], [22, 0]], 2, 1⟩ : World Nat).tables[0]?).bind
            fun col => col[j]?)) ∧
        (∀ j, j ≠ 1 → w'.status[j]? =
          (⟨[7, 0], [[11, 0], [22, 0]], 2, 1⟩ : World Nat).status[j]?) ∧
        w'.size = (⟨[7, 0], [[11, 0], [22, 0]], 2, 1⟩ : World Nat).size ∧
        w'.capacity = (⟨[7, 0], [[11, 0], [22, 0]], 2, 1⟩ : World Nat).capacity :=
  ⟨by unfold World.WF; decide, by decide, by decide, by decide, by decide,
    add_frame true 2 ⟨[7, 0], [[11, 0], [22, 0]], 2, 1⟩ 0 1 33
      (by unfold World.WF; decide) (by decide) (by decide)⟩

/-- C14, evaluated where the code departs from it.  `clear()` on a fresh world of two kinds
leaves `size() == 0` and empties the status table and both columns, but `capacity()` still
returns 8: `clear` does not touch `tables_capacity`. -/
theorem clear_keeps_capacity :
    (World.clear (World.new 2 : World Nat)).size = 0 ∧
      (World.clear (World.new 2 : World Nat)).status = [] ∧
      (World.clear (World.new 2 : World Nat)).tables = [[], []] ∧
      (World.clear (World.new 2 : World Nat)).capacity = 8 := by
  refine ⟨?_, ?_, ?_, ?_⟩ <;> decide

/-! ## Default iteration -/

/-- The loop of `operator++` of `iterator<Exist>` stays inside the table and stops at the next
live slot below `number_of_entities`, or at `number_of_entities`. -/
theorem skip_exist_spec {α : Type} {K : Nat} {w : World α}
    (hlen : w.number_of_entities ≤ w.status.length) :
    ∀ (fuel idx : Nat), idx + fuel = w.number_of_entities →
    ∃ r, World.iterator.skip K w [0] fuel idx = some r ∧ idx ≤ r ∧
      r ≤ w.number_of_entities ∧ (r < w.number_of_entities → World.live K w r = true) ∧
      ∀ j, idx ≤ j → j < r → World.live K w j = false
  | 0, idx, h => ⟨idx, rfl, le_refl _, by omega, fun h' => by omega, fun j h1 h2 => by omega⟩
  | fuel + 1, idx, h => by
    have hi : idx < w.status.length := by omega
    have hs := List.getElem?_eq_getElem hi
    have hl := live_of_getElem? (K := K) hs
    unfold World.iterator.skip
    rw [if_pos (by omega), hs]
    simp only [List.all_cons, List.all_nil, Bool.and_true]
    by_cases ha : ComponentStatus.isActive (K + 1) 0 w.status[idx] = true
    · simp only [ha, Bool.not_true, Bool.false_eq_true, if_false]
      exact ⟨idx, rfl, le_refl _, by omega, fun _ => by rw [hl, ha], fun j h1 h2 => by omega⟩
    · have ha' : ComponentStatus.isActive (K + 1) 0 w.status[idx] = false := by simpa using ha
      simp only [ha', Bool.not_false, if_true]
      obtain ⟨r, hr, h1, h2, h3, h4⟩ := skip_exist_spec hlen fuel (idx + 1) (by omega)
      refine ⟨r, hr, by omega, h2, h3, ?_⟩
      intro j hj1 hj2
      by_cases hji : j = idx
      · subst hji; rw [hl, ha']
      · exact h4 j (by omega) hj2

/-- The loop of `World::begin` is the loop of `operator++` of `iterator<Exist>`. -/
theorem begin_loop_eq_skip {α : Type} (K : Nat) (w : World α) :
    ∀ (fuel idx : Nat), World.begin.loop K w fuel idx = World.iterator.skip K w [0] fuel idx
  | 0, _ => rfl
  | fuel + 1, idx => by
    unfold World.begin.loop World.iterator.skip
    simp only [List.all_cons, List.all_nil, Bool.and_true, begin_loop_eq_skip K w fuel (idx + 1)]

/-- The traversal from a live slot, or from `number_of_entities`, visits in ascending order
exactly the live slots from there up to `number_of_entities`. -/
theorem collect_exist_spec {α : Type} {K : Nat} {w : World α}
    (hlen : w.number_of_entities ≤ w.status.length) :
    ∀ (fuel idx : Nat), idx ≤ w.number_of_entities →
    (idx < w.number_of_entities → World.live K w idx = true) →
    w.number_of_entities - idx < fuel →
    ∃ ids, World.iterator.collect K w [0] w.number_of_entities fuel idx = some ids ∧
      ids.Pairwise (fun a b => a < b) ∧
      (∀ id ∈ ids, idx ≤ id ∧ id < w.number_of_entities ∧ World.live K w id = true) ∧
      ∀ id, idx ≤ id → id < w.number_of_entities → World.live K w id = true → id ∈ ids
  | 0, _, _, _, h => absurd h (Nat.not_lt_zero _)
  | fuel + 1, idx, hle, hlive, hfuel => by
    unfold World.iterator.collect
    by_cases he : idx = w.number_of_entities
    · refine ⟨[], by simp [he], List.Pairwise.nil, by simp, ?_⟩
      intro id h1 h2
      omega
    · have hlt : idx < w.number_of_entities := by omega
      obtain ⟨r, hr, h1, h2, h3, h4⟩ := skip_exist_spec (K := K) hlen
        (w.number_of_entities - (idx + 1)) (idx + 1) (by omega)
      obtain ⟨ids, hids, hp, hall, hcomp⟩ := collect_exist_spec hlen fuel r h2 h3 (by omega)
      refine ⟨idx :: ids, ?_, ?_, ?_, ?_⟩
      · have hne : (idx != w.number_of_entities) = true := by simpa using he
        simp only [hne, if_true, World.iterator.next, hr, hids, Option.map_some']
      · refine List.Pairwise.cons ?_ hp
        intro a ha
        have := (hall a ha).1
        omega
      · intro id hid
        rcases List.mem_cons.mp hid with rfl | hmem
        · exact ⟨le_refl _, hlt, hlive hlt⟩
        · obtain ⟨g1, g2, g3⟩ := hall id hmem
          exact ⟨by omega, g2, g3⟩
      · intro id g1 g2 g3
        by_cases hid : id = idx
        · rw [hid]; exact List.mem_cons_self _ _
        · refine List.mem_cons_of_mem _ (hcomp id ?_ g2 g3)
          by_contra hlt'
          have := h4 id (by omega) (by omega)
          rw [g3] at this
          exact absurd this (by simp)

/-- C20, as stated, fails: `delete_entity(0)` on a fresh world of two kinds stays inside the
tables and wraps the count, so `size()` is `2 ^ 64 - 1` over a status table of 8 entries, none
with its "exists" bit set; the loop of `begin()` then reads `status[8]`, outside the table, and
the traversal produces no ids. -/
theorem iterate_after_count_wrap_leaves_table :
    World.delete_entity true 2 (World.new 2 : World Nat) 0 =
        some ⟨[0, 0, 0, 0, 0, 0, 0, 0],
          [[0, 0, 0, 0, 0, 0, 0, 0], [0, 0, 0, 0, 0, 0, 0, 0]], 8, 2 ^ 64 - 1⟩ ∧
      World.begin 2 (⟨[0, 0, 0, 0, 0, 0, 0, 0],
          [[0, 0, 0, 0, 0, 0, 0, 0], [0, 0, 0, 0, 0, 0, 0, 0]], 8, 2 ^ 64 - 1⟩ : World Nat) =
        none ∧
      World.iterate 2 (⟨[0, 0, 0, 0, 0, 0, 0, 0],
          [[0, 0, 0, 0, 0, 0, 0, 0], [0, 0, 0, 0, 0, 0, 0, 0]], 8, 2 ^ 64 - 1⟩ : World Nat) =
        none := by
  refine ⟨?_, ?_, ?_⟩ <;> decide

/-- C20, amended.  In a world whose `size()` does not exceed the length of its status table, the
traversal from `begin()` to `end()` stays inside the table and ends; the ids it produces are
strictly ascending, each is below `size()` and has its "exists" bit set, and every id below
`size()` whose "exists" bit is set is among them. -/
theorem iterate_ascending_live {α : Type} (K : Nat) (w : World α)
    (hn : w.size ≤ w.status.length) :
    ∃ ids, World.iterate K w = some ids ∧ ids.Pairwise (fun a b => a < b) ∧
      (∀ id ∈ ids, id < w.size ∧ World.live K w id = true) ∧
      ∀ id, id < w.size → World.live K w id = true → id ∈ ids := by
  have hlen : w.number_of_entities ≤ w.status.length := hn
  obtain ⟨r, hr, _, h2, h3, h4⟩ := skip_exist_spec (K := K) hlen w.number_of_entities 0
    (by omega)
  obtain ⟨ids, hids, hp, hall, hcomp⟩ := collect_exist_spec hlen
    (w.number_of_entities + 1) r h2 h3 (by omega)
  refine ⟨ids, ?_, hp, fun id hid => (hall id hid).2, ?_⟩
  · simp only [World.iterate, World.begin, begin_loop_eq_skip, hr, World.end, hids]
  · intro id g1 g2
    refine hcomp id ?_ g1 g2
    by_contra hlt
    have := h4 id (Nat.zero_le _) (by omega)
    rw [g2] at this
    exact absurd this (by simp)

/-- The traversal of C20 on a world of two kinds with four slots and live count 3, whose
slots 0 and 2 are live among the first three: it visits `[0, 2]`. -/
theorem iterate_ascending_live_witness :
    (⟨[4, 0, 4, 4], [[0, 0, 0, 0], [0, 0, 0, 0]], 4, 3⟩ : World Nat).size ≤
        (⟨[4, 0, 4, 4], [[0, 0, 0, 0], [0, 0, 0, 0]], 4, 3⟩ : World Nat).status.length ∧
      World.iterate 2 (⟨[4, 0, 4, 4], [[0, 0, 0, 0], [0, 0, 0, 0]], 4, 3⟩ : World Nat) =
        some [0, 2] ∧
      ∃ ids, World.iterate 2 (⟨[4, 0, 4, 4], [[0, 0, 0, 0], [0, 0, 0, 0]], 4, 3⟩ : World Nat) =
          some ids ∧
        ids.Pairwise (fun a b => a < b) ∧
        (∀ id ∈ ids,
          id < (⟨[4, 0, 4, 4], [[0, 0, 0, 0], [0, 0, 0, 0]], 4, 3⟩ : World Nat).size ∧
          World.live 2 (⟨[4, 0, 4, 4], [[0, 0, 0, 0], [0, 0, 0, 0]], 4, 3⟩ : World Nat) id =
            true) ∧
        ∀ id, id < (⟨[4, 0, 4, 4], [[0, 0, 0, 0], [0, 0, 0, 0]], 4, 3⟩ : World Nat).size →
          World.live 2 (⟨[4, 0, 4, 4], [[0, 0, 0, 0], [0, 0, 0, 0]], 4, 3⟩ : World Nat) id =
            true → id ∈ ids :=
  ⟨by decide, by decide,
    iterate_ascending_live 2 ⟨[4, 0, 4, 4], [[0, 0, 0, 0], [0, 0, 0, 0]], 4, 3⟩ (by decide)⟩

/-! ## The wide bitset -/

theorem ctz_loop_replicate_zero (rest : List Nat) : ∀ (n i : Nat),
    ctzCustomSizeType.loop (List.replicate n 0 ++ rest) i = ctzCustomSizeType.loop rest (i + n)
  | 0, i => by simp
  | n + 1, i => by
    have e : i + (n + 1) = i + 1 + n := by omega
    rw [List.replicate_succ, List.cons_append, ctzCustomSizeType.loop, e,
      ← ctz_loop_replicate_zero rest n (i + 1)]
    simp

/-- The body of `CustomSizeType::operator<<=` on the two-word value 1 of a
`CustomSizeType<128>`: the shift by 1 would leave the value 2, the words `[2, 0]`; with no
whole word to shift the loop `for (i = num_of_elements - 1; i >= 0; --i)` does not stop at
word 0, and the body leaves the word array.  The shift by 128 leaves zero.  The operator
is a private member that nothing calls. -/
theorem shl_by_one_leaves_array :
    CustomSizeType.num_of_elements 128 = 2 ∧
      CustomSizeType.value [1, 0] * 2 ^ 1 % 2 ^ (64 * 2) = CustomSizeType.value [2, 0] ∧
      CustomSizeType.shl 128 [1, 0] 1 = none ∧
      CustomSizeType.shl 128 [1, 0] 128 = some [0, 0] := by
  refine ⟨?_, ?_, ?_, ?_⟩ <;> decide

/-- The body of `CustomSizeType::operator<<=` for every shift `k < 64` of a
`CustomSizeType<128>`: the number of whole words to shift is 0 and the body leaves the word
array: after the iteration at word 0 the loop variable wraps to `2 ^ 64 - 1`, which the next
iteration subscripts (for `k = 0` the first iteration already shifts right by 64). -/
theorem shl_below_64_leaves_array :
    (∀ k, k < 64 → CustomSizeType.shl 128 [3, 5] k = none) ∧
      CustomSizeType.shl.loop 0 1 1 ((0 + 2 ^ 64 - 1) % 2 ^ 64) [6, 10] = none ∧
      ([6, 10] : List Nat)[(0 + 2 ^ 64 - 1) % 2 ^ 64]? = none := by
  refine ⟨?_, ?_, ?_⟩ <;> decide

/-- The range of the return type `int` of `ctzCustomSizeType`: on a value whose first
`2 ^ 25` words are zero and whose next word is 1, the lowest set bit has index `2 ^ 31` and the
result is `-2 ^ 31`.  Such a value has more than `2 ^ 31` bits, more than a list of declared
kinds gives. -/
theorem ctzCustomSizeType_beyond_int :
    ctzCustomSizeType (List.replicate (2 ^ 25) 0 ++ [1]) = some (-2147483648) ∧
      ctzCustomSizeType (List.replicate (2 ^ 25) 0 ++ [1]) ≠
        some (((64 * 2 ^ 25 + 0 : Nat) : Int)) := by
  have h : ctzCustomSizeType (List.replicate (2 ^ 25) 0 ++ [1]) = some (-2147483648) := by
    rw [ctzCustomSizeType, ctz_loop_replicate_zero]
    decide
  rw [h]
  exact ⟨rfl, by decide⟩

/-- C21, evaluated where the code departs from it.  Kinds {A, B} are the positions 0 and 1;
entity 0 holds both and entity 1 holds only A.  `operator++` of the `view<A, B>()` iterator
at index 0 stops at index 1, before `end()`, because it skips a slot only when all requested
kinds are inactive; `has<A, B>(1)` is false and `get<A, B>(1)` is empty, and the traversal of
the view visits `[0, 1]`. -/
theorem view_stops_at_partial_match :
    ∃ (w : World Nat) (ids : List Nat),
      World.run true 2 (World.new 2, [])
        [Op.new_entity, Op.add 0 0 5, Op.add 1 0 6, Op.new_entity, Op.add 0 1 7] =
        some (w, ids) ∧
      ids = [0, 1] ∧ World.View.end w = 2 ∧
      World.iterator.next 2 w [1, 2] 0 = some 1 ∧
      World.has 2 w [0, 1] 1 = some false ∧ World.get 2 w [0, 1] 1 = some none ∧
      World.View.iterate 2 w [0, 1] = some [0, 1] := by
  refine ⟨_, _, rfl, ?_, ?_, ?_, ?_, ?_, ?_⟩ <;> decide

/-- C22, evaluated where the code departs from it.  The entities 0, 1, 2 are created, kind
C (position 0) is added to 0 and 1, and entity 1 is deleted, its C bit left set.  The
traversal of `view<C>()` visits `[0, 1]`: the iterator never tests the "exists" bit, and it
yields the deleted id 1. -/
theorem view_yields_deleted_entity :
    ∃ (w : World Nat) (ids : List Nat),
      World.run true 2 (World.new 2, [])
        [Op.new_entity, Op.new_entity, Op.new_entity, Op.add 0 0 5, Op.add 0 1 6,
          Op.delete_entity 1] = some (w, ids) ∧
      ids = [0, 1, 2] ∧ World.live 2 w 1 = false ∧ World.has 2 w [0] 1 = some true ∧
      World.View.iterate 2 w [0] = some [0, 1] := by
  refine ⟨_, _, rfl, ?_, ?_, ?_, ?_⟩ <;> decide

/-- C23.  In every world of at most 63 kinds reachable from construction by `new_entity`,
`delete_entity` of a live id, `add` and `remove`, `size()` is the number of slots whose
"exists" bit is set, and `size() <= capacity()`. -/
theorem size_eq_live_count {α : Type} [Inhabited α] (int128 : Bool) (K : Nat) (w : World α)
    (hK : K < 64) (hr : World.Reachable int128 K w) :
    w.size = World.live_count K w ∧ w.size ≤ w.capacity := by
  obtain ⟨hinv, hn⟩ := Reachable_Counted hK hr
  refine ⟨hn, ?_⟩
  have h1 := live_count_le K w
  have h2 := hinv.1.1
  show w.number_of_entities ≤ w.tables_capacity
  omega

/-- The count of C23 after three creations, the deletion of entity 1 and one more
creation. -/
theorem size_eq_live_count_witness :
    2 < 64 ∧
      World.Reachable true 2 (⟨[4, 4, 4, 0, 0, 0, 0, 0],
        [[0, 0, 0, 0, 0, 0, 0, 0], [0, 0, 0, 0, 0, 0, 0, 0]], 8, 3⟩ : World Nat) ∧
      (⟨[4, 4, 4, 0, 0, 0, 0, 0],
        [[0, 0, 0, 0, 0, 0, 0, 0], [0, 0, 0, 0, 0, 0, 0, 0]], 8, 3⟩ : World Nat).size = 3 ∧
      World.live_count 2 (⟨[4, 4, 4, 0, 0, 0, 0, 0],
        [[0, 0, 0, 0, 0, 0, 0, 0], [0, 0, 0, 0, 0, 0, 0, 0]], 8, 3⟩ : World Nat) = 3 ∧
      (⟨[4, 4, 4, 0, 0, 0, 0, 0],
        [[0, 0, 0, 0, 0, 0, 0, 0], [0, 0, 0, 0, 0, 0, 0, 0]], 8, 3⟩ : World Nat).size =
        World.live_count 2 (⟨[4, 4, 4, 0, 0, 0, 0, 0],
        [[0, 0, 0, 0, 0, 0, 0, 0], [0, 0, 0, 0, 0, 0, 0, 0]], 8, 3⟩ : World Nat) ∧
      (⟨[4, 4, 4, 0, 0, 0, 0, 0],
        [[0, 0, 0, 0, 0, 0, 0, 0], [0, 0, 0, 0, 0, 0, 0, 0]], 8, 3⟩ : World Nat).size ≤
        (⟨[4, 4, 4, 0, 0, 0, 0, 0],
        [[0, 0, 0, 0, 0, 0, 0, 0], [0, 0, 0, 0, 0, 0, 0, 0]], 8, 3⟩ : World Nat).capacity :=
  ⟨by decide,
    ⟨[Op.new_entity, Op.new_entity, Op.new_entity, Op.delete_entity 1, Op.new_entity],
      [0, 1, 2, 1], by decide⟩,
    by decide, by decide,
    size_eq_live_count true 2 _ (by decide)
      ⟨[Op.new_entity, Op.new_entity, Op.new_entity, Op.delete_entity 1, Op.new_entity],
        [0, 1, 2, 1], by decide⟩⟩

/-- C24, evaluated where the code departs from it.  After `clear()` on a fresh world of two
kinds `size()` is 0, the number of slots whose "exists" bit is set, and below `capacity()`,
which is still 8; the scan of `get_next_entity_id` reads `status[0]` of the empty status
table and finds no slot. -/
theorem get_next_entity_id_after_clear_leaves_table :
    (World.clear (World.new 2 : World Nat)).size =
        World.live_count 2 (World.clear (World.new 2 : World Nat)) ∧
      (World.clear (World.new 2 : World Nat)).size <
        (World.clear (World.new 2 : World Nat)).capacity ∧
      (World.clear (World.new 2 : World Nat)).status[0]? = none ∧
      World.get_next_entity_id 2 (World.clear (World.new 2 : World Nat)) = none := by
  refine ⟨?_, ?_, ?_, ?_⟩ <;> decide

/-- The allocation of C24 where `clear()` has not been called.  In a world of at most 63
kinds whose status table has length `capacity()`, where `size()` is the number of slots whose "exists" bit is set and
`size() < capacity()`: `get_next_entity_id` returns a slot among the indices `0 .. size()`
whose "exists" bit is clear (not the fallback), and `new_entity()` returns that id, sets its
"exists" bit and leaves the "exists" bit of every other slot unchanged. -/
theorem new_entity_claims_clear_slot {α : Type} [Inhabited α] (int128 : Bool) (K : Nat)
    (w : World α) (hK : K < 64) (hw : w.status.length = w.capacity)
    (hcount : w.size = World.live_count K w) (hlt : w.size < w.capacity) :
    ∃ r w', World.get_next_entity_id K w = some r ∧ r ≤ w.size ∧ World.live K w r = false ∧
      World.new_entity int128 K w = some (w', r) ∧ World.live K w' r = true ∧
      ∀ j, j ≠ r → World.live K w' j = World.live K w j := by
  have hlen : w.status.length = w.tables_capacity := hw
  have hn : w.number_of_entities = World.live_count K w := hcount
  have hlt' : w.number_of_entities < w.tables_capacity := hlt
  have hfull : w.number_of_entities ≠ w.tables_capacity := by omega
  obtain ⟨r, hr, hspec⟩ := get_next_entity_id_loop_spec (K := K) hlen w.tables_capacity 0
    (by omega)
  have hfound : r < w.tables_capacity ∧ r ≤ w.number_of_entities ∧
      World.live K w r = false := by
    rcases hspec with ⟨_, h2, h3, h4, _⟩ | ⟨_, h2⟩
    · exact ⟨h2, h3, h4⟩
    · exfalso
      have := lt_live_count_of_initial (K := K) (w := w) (n := w.number_of_entities)
        (by omega) (fun j hjn => h2 j (Nat.zero_le j) (by omega) hjn)
      omega
  have hi : r < w.status.length := by omega
  have hs := List.getElem?_eq_getElem hi
  have hne : r ≠ w.tables_capacity := by omega
  have hnew : World.new_entity int128 K w =
      some ({ w with
              number_of_entities := w.number_of_entities + 1
              status := w.status.set r (World.claimed int128 K w.status[r]) }, r) := by
    simp only [World.new_entity, World.get_next_entity_id, hfull, if_false, hr, hne, hs,
      World.claimed, increment_of_le (w := w) (by omega)]
  refine ⟨r, _, ?_, hfound.2.1, hfound.2.2, hnew, ?_, ?_⟩
  · simp only [World.get_next_entity_id, hfull, if_false, hr]
  · rw [live_of_getElem? (w := World.mk _ _ _ _) (List.getElem?_set_self hi)]
    exact isActive_claimed_exist hK _
  · intro j hj
    exact live_congr (w := w) (List.getElem?_set_ne (Ne.symm hj))

/-- The allocation of C24 in a world of two kinds and four slots whose slots 0 and 2 are
live: the scan returns slot 1. -/
theorem new_entity_claims_clear_slot_witness :
    2 < 64 ∧
      (⟨[4, 2, 4, 0], [[0, 9, 0, 0], [0, 0, 0, 0]], 4, 2⟩ : World Nat).status.length =
        (⟨[4, 2, 4, 0], [[0, 9, 0, 0], [0, 0, 0, 0]], 4, 2⟩ : World Nat).capacity ∧
      (⟨[4, 2, 4, 0], [[0, 9, 0, 0], [0, 0, 0, 0]], 4, 2⟩ : World Nat).size =
        World.live_count 2 (⟨[4, 2, 4, 0], [[0, 9, 0, 0], [0, 0, 0, 0]], 4, 2⟩ : World Nat) ∧
      (⟨[4, 2, 4, 0], [[0, 9, 0, 0], [0, 0, 0, 0]], 4, 2⟩ : World Nat).size <
        (⟨[4, 2, 4, 0], [[0, 9, 0, 0], [0, 0, 0, 0]], 4, 2⟩ : World Nat).capacity ∧
      World.new_entity true 2 (⟨[4, 2, 4, 0], [[0, 9, 0, 0], [0, 0, 0, 0]], 4, 2⟩ : World Nat) =
        some (⟨[4, 4, 4, 0], [[0, 9, 0, 0], [0, 0, 0, 0]], 4, 3⟩, 1) ∧
      ∃ r w',
        World.get_next_entity_id 2
          (⟨[4, 2, 4, 0], [[0, 9, 0, 0], [0, 0, 0, 0]], 4, 2⟩ : World Nat) = some r ∧
        r ≤ (⟨[4, 2, 4, 0], [[0, 9, 0, 0], [0, 0, 0, 0]], 4, 2⟩ : World Nat).size ∧
        World.live 2 (⟨[4, 2, 4, 0], [[0, 9, 0, 0], [0, 0, 0, 0]], 4, 2⟩ : World Nat) r =
          false ∧
        World.new_entity true 2
          (⟨[4, 2, 4, 0], [[0, 9, 0, 0], [0, 0, 0, 0]], 4, 2⟩ : World Nat) = some (w', r) ∧
        World.live 2 w' r = true ∧
        ∀ j, j ≠ r → World.live 2 w' j =
          World.live 2 (⟨[4, 2, 4, 0], [[0, 9, 0, 0], [0, 0, 0, 0]], 4, 2⟩ : World Nat) j :=
  ⟨by decide, by decide, by decide, by decide, by decide,
    new_entity_claims_clear_slot true 2 ⟨[4, 2, 4, 0], [[0, 9, 0, 0], [0, 0, 0, 0]], 4, 2⟩
      (by decide) (by decide) (by decide) (by decide)⟩

/-- C25.  In every world reachable from construction by `new_entity`, `delete_entity` (of
any id inside the tables, live or not), `add` and `remove`, the status table and every column
have length `capacity()`; a
fresh world has a status table of 8 zero entries, `K` columns of 8 value-initialised slots
and capacity 8; and on a full table `new_entity()` doubles the capacity, leaves the status
table and every column at the doubled length, and keeps the status entry and the column
values at every index below the former capacity. -/
theorem tables_have_length_capacity {α : Type} [Inhabited α] (int128 : Bool) (K : Nat)
    (w : World α) (hr : World.Reachable_any int128 K w) :
    (w.status.length = w.capacity ∧ ∀ col ∈ w.tables, col.length = w.capacity) ∧
    ((World.new K : World α).status = List.replicate 8 0 ∧
      (World.new K : World α).tables = List.replicate K (List.replicate 8 default) ∧
      (World.new K : World α).capacity = 8) ∧
    (w.size = w.capacity →
      ∃ w' id, World.new_entity int128 K w = some (w', id) ∧
        w'.capacity = 2 * w.capacity ∧ w'.status.length = w'.capacity ∧
        (∀ col ∈ w'.tables, col.length = w'.capacity) ∧
        (∀ j, j < w.capacity → w'.status[j]? = w.status[j]?) ∧
        ∀ c j : Nat, j < w.capacity →
          ((w'.tables[c]?).bind fun col => col[j]?) =
            ((w.tables[c]?).bind fun col => col[j]?)) := by
  have hinv := Reachable_any_Inv hr
  refine ⟨⟨hinv.1.1, hinv.1.2.2⟩, ⟨rfl, ?_, rfl⟩, ?_⟩
  · simp [World.new, World.increase_capacity, World.defaultTableCapacity, resize]
  · intro hfull
    have hfull' : w.number_of_entities = w.tables_capacity := hfull
    obtain ⟨w', id, hnew, hinv', _, _, hcap⟩ := new_entity_Inv int128 hinv
    have hgrow := new_entity_grow int128 hinv hfull'
    rw [hnew] at hgrow
    obtain ⟨hw', _⟩ := Prod.mk.inj (Option.some.inj hgrow)
    have hst : w'.status = (resize w.status (w.tables_capacity * 2) ComponentStatus.init).set
        (w.number_of_entities + 1) (World.claimed int128 K ComponentStatus.init) := by
      rw [hw']
    have htb : w'.tables = w.tables.map fun col => resize col (w.tables_capacity * 2) default := by
      rw [hw']; rfl
    rw [if_pos hfull'] at hcap
    refine ⟨w', id, hnew, ?_, hinv'.1.1, hinv'.1.2.2, ?_, ?_⟩
    · show w'.tables_capacity = 2 * w.tables_capacity
      omega
    · intro j hj
      have hj' : j < w.tables_capacity := hj
      have hlen := hinv.1.1
      rw [hst, List.getElem?_set_ne (by omega),
        getElem?_resize_of_lt _ _ _ (by omega) (by omega)]
    · intro c j hj
      have hj' : j < w.tables_capacity := hj
      rw [htb, List.getElem?_map]
      cases hc : w.tables[c]? with
      | none => rfl
      | some col =>
        have hcl : col.length = w.tables_capacity := hinv.1.2.2 col (List.getElem?_mem hc)
        simp only [Option.map_some', Option.some_bind]
        exact getElem?_resize_of_lt _ _ _ (by omega) (by omega)

/-- The sizes of C25 on the full table reached by `delete_entity(0)` on the fresh world (the
count wraps to `2 ^ 64 - 1`), nine creations (the first brings the count back to 0, the second
hands out id 0 again) and one `add`: the next creation doubles the tables and keeps the stored
value. -/
theorem tables_have_length_capacity_witness :
    World.Reachable_any true 2
        (⟨[4, 4, 4, 6, 4, 4, 4, 4],
          [[0, 0, 0, 7, 0, 0, 0, 0], [0, 0, 0, 0, 0, 0, 0, 0]], 8, 8⟩ : World Nat) ∧
      (⟨[4, 4, 4, 6, 4, 4, 4, 4],
          [[0, 0, 0, 7, 0, 0, 0, 0], [0, 0, 0, 0, 0, 0, 0, 0]], 8, 8⟩ : World Nat).size =
        (⟨[4, 4, 4, 6, 4, 4, 4, 4],
          [[0, 0, 0, 7, 0, 0, 0, 0], [0, 0, 0, 0, 0, 0, 0, 0]], 8, 8⟩ : World Nat).capacity ∧
      ∃ w' id,
        World.new_entity true 2
          (⟨[4, 4, 4, 6, 4, 4, 4, 4],
            [[0, 0, 0, 7, 0, 0, 0, 0], [0, 0, 0, 0, 0, 0, 0, 0]], 8, 8⟩ : World Nat) =
          some (w', id) ∧
        w'.capacity =
          2 * (⟨[4, 4, 4, 6, 4, 4, 4, 4],
            [[0, 0, 0, 7, 0, 0, 0, 0], [0, 0, 0, 0, 0, 0, 0, 0]], 8, 8⟩ : World Nat).capacity ∧
        w'.status.length = w'.capacity ∧
        (∀ col ∈ w'.tables, col.length = w'.capacity) ∧
        (∀ j, j < (⟨[4, 4, 4, 6, 4, 4, 4, 4],
            [[0, 0, 0, 7, 0, 0, 0, 0], [0, 0, 0, 0, 0, 0, 0, 0]], 8, 8⟩ : World Nat).capacity →
          w'.status[j]? =
            (⟨[4, 4, 4, 6, 4, 4, 4, 4],
              [[0, 0, 0, 7, 0, 0, 0, 0], [0, 0, 0, 0, 0, 0, 0, 0]], 8, 8⟩ :
                World Nat).status[j]?) ∧
        ∀ c j : Nat, j < (⟨[4, 4, 4, 6, 4, 4, 4, 4],
            [[0, 0, 0, 7, 0, 0, 0, 0], [0, 0, 0, 0, 0, 0, 0, 0]], 8, 8⟩ : World Nat).capacity →
          ((w'.tables[c]?).bind fun col => col[j]?) =
            (((⟨[4, 4, 4, 6, 4, 4, 4, 4],
              [[0, 0, 0, 7, 0, 0, 0, 0], [0, 0, 0, 0, 0, 0, 0, 0]], 8, 8⟩ :
                World Nat).tables[c]?).bind fun col => col[j]?) :=
  ⟨⟨Op.delete_entity 0 :: (List.replicate 9 Op.new_entity ++ [Op.add 0 3 7]),
      [0, 0, 1, 2, 3, 4, 5, 6, 7], by decide⟩,
    by decide,
    (tables_have_length_capacity true 2 _
      ⟨Op.delete_entity 0 :: (List.replicate 9 Op.new_entity ++ [Op.add 0 3 7]),
        [0, 0, 1, 2, 3, 4, 5, 6, 7], by decide⟩).2.2 (by decide)⟩

/-- C26, evaluated where the code departs from it.  On a fresh world of two kinds, where
`size() == 0` and no slot holds kind A (position 0), the loop of `view<A>().begin()` goes on
at every index below 8, because its bound `idx < number_of_entities` guards only the test of
the "exists" bit, and at index 8 it reads the status table of length 8 out of bounds. -/
theorem view_begin_leaves_table :
    (World.new 2 : World Nat).size = 0 ∧ (World.new 2 : World Nat).status.length = 8 ∧
      (∀ idx, idx < 8 →
        World.View.begin.cond 2 (World.new 2 : World Nat) [0] idx = some true) ∧
      World.View.begin.cond 2 (World.new 2 : World Nat) [0] 8 = none ∧
      World.View.begin 2 (World.new 2 : World Nat) [0] = none := by
  refine ⟨?_, ?_, ?_, ?_, ?_⟩ <;> decide

/-- C27, evaluated where the code departs from it.  After `clear()` on a fresh world of two
kinds the status table is empty while `tables_capacity` is still 8, so `new_entity()` does
not grow the tables: `get_next_entity_id` reads `status[0]` of the empty table. -/
theorem new_entity_after_clear_leaves_table :
    (World.clear (World.new 2 : World Nat)).status.length = 0 ∧
      (World.clear (World.new 2 : World Nat)).capacity = 8 ∧
      World.get_next_entity_id 2 (World.clear (World.new 2 : World Nat)) = none ∧
      World.new_entity true 2 (World.clear (World.new 2 : World Nat)) = none := by
  refine ⟨?_, ?_, ?_, ?_⟩ <;> decide

end BECS
